import Mathlib

/-!
# qd-cae: the tensor container, the work queue and the part

A shallow embedding of `qd::Tensor<T>` (`dyna_cpp/math/Tensor.hpp`), of
`qd::WorkQueue::submit` with the closure it queues (`dyna_cpp/parallel/WorkQueue.hpp`)
and of the element list of `qd::Part` (`dyna_cpp/db/Part.cpp`).

* `std::vector<T>` is a `List α`; `std::vector<size_t>` is a `List Nat`.
* `size_t` is the 64-bit unsigned word: every `size_t` operation of the source is
  followed by `% SIZE_T_RANGE`.  `int` is the 32-bit signed word.
* A member function that mutates the tensor and may throw returns the pair
  (what the call did, the tensor after the call).
* A call whose behaviour is undefined in the source (a write or a read past the end of a
  buffer, an integer division by zero, a reference to an object that no longer exists) has
  no result: such definitions return an `Option`, and the undefined call is `none`.  For
  `Tensor<T>::set` the stored elements after the call and whether the call is defined are
  two definitions, `Tensor.set` and `Tensor.set_defined`.
* The limits of the target for a `std::vector` (`max_size()`, the memory of the allocator)
  are not in the sources; they are a parameter, `VectorLimits`.
* `_data` is a `std::shared_ptr<std::vector<T>>`; the embedding follows one tensor and
  has no second tensor that shares its `_data`.
-/

namespace qd

/-! ## Machine integers -/

/-- Number of values of a `size_t` (64-bit unsigned). -/
def SIZE_T_RANGE : Nat := 2 ^ 64

/-- Number of values of an `int` (32-bit two's complement). -/
def INT_RANGE : Nat := 2 ^ 32

/-- Conversion `int -> size_t`: the value modulo `2 ^ 64` (sign extension). -/
def int_to_size_t (i : Int) : Nat := (i % (SIZE_T_RANGE : Int)).toNat

/-- Conversion `size_t -> int`: the low 32 bits read as a signed number. -/
def size_t_to_int (n : Nat) : Int :=
  if n % INT_RANGE < INT_RANGE / 2 then ((n % INT_RANGE : Nat) : Int)
  else ((n % INT_RANGE : Nat) : Int) - (INT_RANGE : Int)

/-- The call `std::accumulate(first, last, static_cast<size_t>(1), std::multiplies<>())`
of the constructors, `resize` and `reshape`: the accumulator is a `size_t`. -/
def accumulate_size_t (dims : List Nat) : Nat :=
  dims.foldl (fun acc d => (acc * d) % SIZE_T_RANGE) 1

/-- The call `std::accumulate(first, last, 1, std::multiplies<>())` of `get_offset`:
the initial value `1` is an `int`, so the accumulator is an `int`; each step
multiplies in `size_t` (the `int` is converted) and stores the product back
into the `int`. -/
def accumulate_int (dims : List Nat) : Int :=
  dims.foldl (fun acc d => size_t_to_int ((int_to_size_t acc * d) % SIZE_T_RANGE)) 1

/-! ## Tensor -/

/-- The `std::invalid_argument` exceptions of `Tensor.hpp`, told apart by their message:
`OutOfRange` is "Tensor index too large.", `RankMismatch` is "Tensor index dimension
different from tensor dimension.", `ShapeMismatch` is "Tensor reshape does not match
container size.". -/
inductive TensorError where
  | OutOfRange
  | RankMismatch
  | ShapeMismatch
  deriving DecidableEq, Repr

deriving instance DecidableEq for Except

/-- The exceptions of `std::vector<T>` when it cannot hold a count of elements:
`std::length_error` for a count above `max_size()`, `std::bad_alloc` when the allocator has
no memory for it. -/
inductive VectorError where
  | length_error
  | bad_alloc
  deriving DecidableEq, Repr

/-- The limits of the target for a `std::vector<T>`: its `max_size()` and the largest
count of elements for which the allocator has memory. -/
structure VectorLimits where
  max_size : Nat
  memory : Nat
  deriving DecidableEq, Repr

/-- The allocation of the storage for `n` elements of a `std::vector<T>`. -/
def VectorLimits.allocate (lim : VectorLimits) (n : Nat) : Except VectorError Unit :=
  if n > lim.max_size then .error .length_error
  else if n > lim.memory then .error .bad_alloc
  else .ok ()

/-- The class `Tensor<T>`: the members `_shape` and `_data`. -/
structure Tensor (α : Type) where
  _shape : List Nat
  _data : List α
  deriving DecidableEq, Repr

/-- The elements of a vector after a call `std::vector<T>::resize(n)` that returns: the
first `n` elements are kept and value-initialised (zero) elements are appended up to length
`n`. -/
def vector_resize {α : Type} [Zero α] (v : List α) (n : Nat) : List α :=
  v.take n ++ List.replicate (n - v.length) 0

/-- The call `std::copy(src, src + n, dst.begin())`: the first `n` elements of `src`
overwrite the first `n` positions of `dst`.  `src` is the buffer behind the raw pointer:
with fewer than `n` elements in it the source reads past its end, and with fewer than `n`
positions in `dst` it writes past the end, both undefined. -/
def std_copy {α : Type} (src : List α) (n : Nat) (dst : List α) : Option (List α) :=
  if n ≤ src.length ∧ n ≤ dst.length then some (src.take n ++ dst.drop n) else none

namespace Tensor

variable {α : Type}

/-- `Tensor<T>::Tensor()`: an empty data vector, a default (empty) shape. -/
def new : Tensor α :=
  { _shape := [], _data := [] }

/-- The tensor that `Tensor<T>::Tensor(std::initializer_list<size_t> list)` builds once its
vector is allocated: the shape, and value-initialised elements. -/
def new_shape [Zero α] (list : List Nat) : Tensor α :=
  { _shape := list, _data := List.replicate (accumulate_size_t list) 0 }

/-- `Tensor<T>::Tensor(std::initializer_list<size_t> list)`: `std::make_shared<
std::vector<T>>(count)` throws when the vector cannot be allocated. -/
def construct_shape [Zero α] (lim : VectorLimits) (list : List Nat) :
    Except VectorError (Tensor α) :=
  match lim.allocate (accumulate_size_t list) with
  | .error e => .error e
  | .ok () => .ok (new_shape list)

/-- `Tensor<T>::Tensor(std::vector<size_t> list, const T* data)`: the vector is allocated
as in the constructor from a shape, then `std::copy(data, data + _data->size(),
_data->begin())` fills it from the buffer. -/
def construct_shape_data [Zero α] (lim : VectorLimits) (list : List Nat) (data : List α) :
    Option (Except VectorError (Tensor α)) :=
  match lim.allocate (accumulate_size_t list) with
  | .error e => some (.error e)
  | .ok () =>
    let _data : List α := List.replicate (accumulate_size_t list) 0
    match std_copy data _data.length _data with
    | none => none
    | some copied => some (.ok { _shape := list, _data := copied })

/-- `Tensor<T>::size`. -/
def size (t : Tensor α) : Nat := t._data.length

/-- `Tensor<T>::get_shape`. -/
def get_shape (t : Tensor α) : List Nat := t._shape

/-- `Tensor<T>::get_data`. -/
def get_data (t : Tensor α) : List α := t._data

/-- The loop of `get_offset`: for each `ii`, the stride `offset` is accumulated over
`_shape` from position `ii + 1` on, and `indexes[ii] * offset` is added to
`entry_index`, in `size_t`. -/
def entry_index (shape indexes : List Nat) : Nat :=
  (List.range indexes.length).foldl
    (fun entry_index ii =>
      let offset := int_to_size_t (accumulate_int (shape.drop (ii + 1)))
      (entry_index + (indexes.getD ii 0 * offset) % SIZE_T_RANGE) % SIZE_T_RANGE)
    0

/-- `Tensor<T>::get_offset`. -/
def get_offset (t : Tensor α) (indexes : List Nat) : Except TensorError Nat :=
  if t._data.length = 0 then .error .OutOfRange
  else if indexes.length ≠ t._shape.length then .error .RankMismatch
  else
    let entry_index := entry_index t._shape indexes
    if entry_index > t._data.length then .error .OutOfRange
    else .ok entry_index

/-- `Tensor<T>::set`: `_data->operator[](get_offset(indexes)) = value`: what the call
returned or threw, and the stored elements afterwards.  The assignment is `List.set`.  At
an offset equal to the length of `_data`, which the guard of `get_offset` lets through, the
source writes one past the last element: no stored element changes, and the behaviour of
the call is undefined, which `set_defined` records. -/
def set (t : Tensor α) (indexes : List Nat) (value : α) : Except TensorError Unit × Tensor α :=
  match t.get_offset indexes with
  | .error e => (.error e, t)
  | .ok offset => (.ok (), { t with _data := t._data.set offset value })

/-- Whether the behaviour of `set(indexes, value)` is defined: `get_offset` throws, or the
offset it returns is a position of `_data`.  A write at the offset `_data->size()`, which
the guard of `get_offset` lets through, is a write past the end of the buffer: undefined. -/
def set_defined (t : Tensor α) (indexes : List Nat) : Bool :=
  match t.get_offset indexes with
  | .error _ => true
  | .ok offset => decide (offset < t._data.length)

/-- `Tensor<T>::resize`: `_data->resize(_new_data_len)`, then `_shape = _new_shape`.  A
resize to at most the current length needs no storage; a longer one throws when the vector
cannot be allocated, before anything is changed. -/
def resize [Zero α] (lim : VectorLimits) (t : Tensor α) (_new_shape : List Nat) :
    Except VectorError Unit × Tensor α :=
  let _new_data_len := accumulate_size_t _new_shape
  if _new_data_len ≤ t._data.length then
    (.ok (), { _shape := _new_shape, _data := vector_resize t._data _new_data_len })
  else
    match lim.allocate _new_data_len with
    | .error e => (.error e, t)
    | .ok () => (.ok (), { _shape := _new_shape, _data := vector_resize t._data _new_data_len })

/-- `Tensor<T>::reshape`. -/
def reshape (t : Tensor α) (new_shape : List Nat) : Except TensorError Unit × Tensor α :=
  let new_data_len := accumulate_size_t new_shape
  if t._data.length ≠ new_data_len then (.error .ShapeMismatch, t)
  else (.ok (), { t with _shape := new_shape })

/-- `Tensor<T>::push_back`. -/
def push_back (t : Tensor α) (value : α) : Tensor α :=
  { t with _data := t._data ++ [value] }

end Tensor

/-- The specification's row-major flat offset, written from its words: for the shape
`[d0, ..., dn-1]` the offset of `[i0, ..., in-1]` is the sum over `k` of `ik` times the
product of the `dj` with `j > k`, in exact arithmetic. -/
def row_major_offset (shape indexes : List Nat) : Nat :=
  ((List.range indexes.length).map
    (fun k => indexes.getD k 0 * (shape.drop (k + 1)).prod)).sum

/-- One call of a client on a tensor, for sequences of calls: `set`, `resize` or `reshape`. -/
inductive TensorCall (α : Type) where
  | set (indexes : List Nat) (value : α)
  | resize (new_shape : List Nat)
  | reshape (new_shape : List Nat)

/-- The tensor after one call, whether the call returned or threw; `none` for a `set`
whose behaviour is undefined. -/
def TensorCall.apply {α : Type} [Zero α] (lim : VectorLimits) (t : Tensor α) :
    TensorCall α → Option (Tensor α)
  | .set indexes value => if t.set_defined indexes then some (t.set indexes value).2 else none
  | .resize new_shape => some (t.resize lim new_shape).2
  | .reshape new_shape => some (t.reshape new_shape).2

/-- The tensor after a finite sequence of calls, first call first; `none` when the
behaviour of one of the calls is undefined. -/
def run_calls {α : Type} [Zero α] (lim : VectorLimits) :
    Tensor α → List (TensorCall α) → Option (Tensor α)
  | t, [] => some t
  | t, c :: cs =>
    match c.apply lim t with
    | none => none
    | some t2 => run_calls lim t2 cs

/-! ## WorkQueue -/

/-- The `std::runtime_error` of `submit`: "Caught work submission to work queue that is
desisting." -/
inductive WorkQueueError where
  | Terminating
  deriving DecidableEq, Repr

/-- The shared state of a `std::promise<ReturnType>` and the `std::future` taken from it:
not yet satisfied, a value, or a stored exception. -/
inductive SharedState (ρ ε : Type) where
  | pending
  | value (v : ρ)
  | exception (e : ε)
  deriving DecidableEq, Repr

/-- `PromiseFunctionPair<ReturnType, Args...>`: the promise and the function.  A function
that may throw is a function into `Except`, of the values that its arguments hold when it
is called. -/
structure PromiseFunctionPair (α ρ ε : Type) where
  first : SharedState ρ ε
  second : α → Except ε ρ

/-- The closure `[data, &args...]() { ... }` that `submit` stores in `m_work`: the captured
`shared_ptr` `data` (the position of its object among the allocated pairs) and the
arguments, captured by reference: `args` refers to the objects of the caller, it does not
hold their values. -/
structure Work (κ : Type) where
  data : Nat
  args : κ
  deriving DecidableEq, Repr

/-- A `std::future<ReturnType>`: it refers to the shared state of one promise. -/
structure Future where
  state : Nat
  deriving DecidableEq, Repr

/-- The class `WorkQueue`, as far as `submit` reads and writes it: the deque `m_work`
(front first), the flags `m_exit` and `m_finish_work`, and the objects allocated with
`std::make_shared<PromiseFunctionPair>` so far.  The mutex, the condition variable and the
worker threads are not part of the state: a call of `submit` is one step. -/
structure WorkQueue (κ α ρ ε : Type) where
  m_work : List (Work κ)
  m_exit : Bool
  m_finish_work : Bool
  heap : List (PromiseFunctionPair α ρ ε)

/-- `WorkQueue::submit`; `args` are the references to the arguments of the caller. -/
def WorkQueue.submit {κ α ρ ε : Type} (q : WorkQueue κ α ρ ε) (function : α → Except ε ρ)
    (args : κ) : Except WorkQueueError Future × WorkQueue κ α ρ ε :=
  if q.m_exit then (.error .Terminating, q)
  else
    let data := q.heap.length
    let future : Future := { state := data }
    (.ok future,
      { q with
        heap := q.heap ++ [{ first := .pending, second := function }],
        m_work := q.m_work ++ [{ data := data, args := args }] })

/-- Several calls of `submit` one after the other, first of the list first: what each call
returned or threw, and the queue afterwards. -/
def submit_all {κ α ρ ε : Type} :
    WorkQueue κ α ρ ε → List ((α → Except ε ρ) × κ) →
      List (Except WorkQueueError Future) × WorkQueue κ α ρ ε
  | q, [] => ([], q)
  | q, job :: jobs =>
    let r := q.submit job.1 job.2
    let rs := submit_all r.2 jobs
    (r.1 :: rs.1, rs.2)

/-- Modelled from the spec: the enumeration `Element::ElementType` is not among the
sources; `Part.cpp` names its value `NONE`, every other value is told apart by a tag. -/
inductive ElementType where
  | NONE
  | other (tag : Nat)
  deriving DecidableEq, Repr

/-- Modelled from the spec: the class `Element` is not among the sources.  A
`std::shared_ptr<Element>` is the address it holds (two of them compare equal exactly when
the addresses are equal) together with what the accessors `get_elementType`, `get_nNodes`
and `get_node_ids` of the element return. -/
structure Element where
  address : Nat
  get_elementType : ElementType
  get_nNodes : Nat
  get_node_ids : List Int
  deriving DecidableEq, Repr

/-- The class `Part`: the member `elements`. -/
structure Part where
  elements : List Element
  deriving DecidableEq, Repr

/-- The idiom `v.erase(std::remove_if(v.begin(), v.end(), pred), v.end())`: the elements
for which `pred` holds are dropped, the others are moved to the front in their order. -/
def erase_remove_if {α : Type} (pred : α → Bool) : List α → List α
  | [] => []
  | x :: xs => if pred x then erase_remove_if pred xs else x :: erase_remove_if pred xs

/-- The call `std::copy(src.begin(), src.end(), dst.begin() + offset)`: the elements of
`src` are assigned one after the other from position `offset` on.  An assignment at a
position that `dst` does not have is a write past the end of the buffer: undefined. -/
def copy_at {α : Type} : List α → Nat → List α → Option (List α)
  | [], _, dst => some dst
  | x :: xs, offset, dst =>
    if offset < dst.length then copy_at xs (offset + 1) (dst.set offset x) else none

namespace Part

/-- `Part::add_element`. -/
def add_element (part : Part) (_element : Element) : Part :=
  { part with elements := part.elements ++ [_element] }

/-- `Part::get_elements`: the vector returned, and the part after the call. -/
def get_elements (part : Part) (_etype : ElementType) : List Element × Part :=
  if _etype = ElementType.NONE then (part.elements, part)
  else
    let _elems := part.elements.foldl
      (fun _elems tmp_elem =>
        if tmp_elem.get_elementType = _etype then _elems ++ [tmp_elem] else _elems)
      []
    (_elems, part)

/-- `Part::remove_element`. -/
def remove_element (part : Part) (_element : Element) : Part :=
  { part with
    elements :=
      erase_remove_if (fun elem => decide (elem.address = _element.address)) part.elements }

/-- One pass of the loop of `Part::get_element_node_ids` over the counter `iElement` and
the data of the tensor: for an element of the type and the node count asked for, its node
ids are copied to `tensor_data->begin() + iElement++ * nNodes`, a `size_t` product.  The
counter is at most the number of elements, itself a `size_t`, so its increment does not
wrap.  `none` once a `std::copy` has written past the end of the data. -/
def node_ids_step (element_type : ElementType) (nNodes : Nat)
    (state : Option (Nat × List Int)) (element : Element) : Option (Nat × List Int) :=
  match state with
  | none => none
  | some st =>
    if element.get_elementType = element_type ∧ element.get_nNodes = nNodes then
      match copy_at element.get_node_ids ((st.1 * nNodes) % SIZE_T_RANGE) st.2 with
      | none => none
      | some copied => some (st.1 + 1, copied)
    else some st

/-- The loop of `Part::get_element_node_ids`: `iElement` starts at 0. -/
def node_ids_loop (elements : List Element) (element_type : ElementType) (nNodes : Nat)
    (tensor_data : List Int) : Option (Nat × List Int) :=
  elements.foldl (node_ids_step element_type nNodes) (some (0, tensor_data))

/-- `Part::get_element_node_ids`: the tensor returned, the exception of a `resize`, or
`none` when the loop has written past the end of the data. -/
def get_element_node_ids (lim : VectorLimits) (part : Part) (element_type : ElementType)
    (nNodes : Nat) : Option (Except VectorError (Tensor Int)) :=
  match (Tensor.new : Tensor Int).resize lim [part.elements.length, nNodes] with
  | (.error e, _) => some (.error e)
  | (.ok (), tensor) =>
    match node_ids_loop part.elements element_type nNodes tensor.get_data with
    | none => none
    | some state =>
      match ({ tensor with _data := state.2 } : Tensor Int).resize lim [state.1, nNodes] with
      | (.error e, _) => some (.error e)
      | (.ok (), result) => some (.ok result)

/-- The assignment `tensor_data->operator[](iEntry++) = db_nodes->get_index_from_id(id)`
of `Part::get_element_node_indexes` on the counter `iEntry` and the data of the tensor;
`get_index_from_id` is the lookup of the node database, which is not among the sources,
with its result as stored in the `int32_t` tensor.  At a position that the data do not
have the assignment is a write past the end of the buffer: `none`. -/
def node_indexes_assign (get_index_from_id : Int → Int) (state : Option (Nat × List Int))
    (id : Int) : Option (Nat × List Int) :=
  match state with
  | none => none
  | some st =>
    if st.1 < st.2.length then some (st.1 + 1, st.2.set st.1 (get_index_from_id id))
    else none

/-- One pass of the loop of `Part::get_element_node_indexes`: for an element of the type
and the node count asked for, one assignment for each of its node ids. -/
def node_indexes_step (get_index_from_id : Int → Int) (element_type : ElementType)
    (nNodes : Nat) (state : Option (Nat × List Int)) (element : Element) :
    Option (Nat × List Int) :=
  if element.get_elementType = element_type ∧ element.get_nNodes = nNodes then
    element.get_node_ids.foldl (node_indexes_assign get_index_from_id) state
  else state

/-- The loop of `Part::get_element_node_indexes`: `iEntry` starts at 0. -/
def node_indexes_loop (get_index_from_id : Int → Int) (elements : List Element)
    (element_type : ElementType) (nNodes : Nat) (tensor_data : List Int) :
    Option (Nat × List Int) :=
  elements.foldl (node_indexes_step get_index_from_id element_type nNodes)
    (some (0, tensor_data))

/-- `Part::get_element_node_indexes`: the tensor returned, the exception of a `resize`, or
`none` when the behaviour is undefined: the loop has written past the end of the data, or
`nNodes = 0`, for which the last statement divides `iEntry` by zero. -/
def get_element_node_indexes (lim : VectorLimits) (get_index_from_id : Int → Int)
    (part : Part) (element_type : ElementType) (nNodes : Nat) :
    Option (Except VectorError (Tensor Int)) :=
  match (Tensor.new : Tensor Int).resize lim [part.elements.length, nNodes] with
  | (.error e, _) => some (.error e)
  | (.ok (), tensor) =>
    match node_indexes_loop get_index_from_id part.elements element_type nNodes
        tensor.get_data with
    | none => none
    | some state =>
      if nNodes = 0 then none
      else
        match ({ tensor with _data := state.2 } : Tensor Int).resize lim
            [state.1 / nNodes, nNodes] with
        | (.error e, _) => some (.error e)
        | (.ok (), result) => some (.ok result)

end Part

/-- An element of type 2 with `2^32` node ids, all of them 7. -/
def wide_element : Element :=
  { address := 1, get_elementType := .other 2, get_nNodes := 2 ^ 32,
    get_node_ids := List.replicate (2 ^ 32) 7 }

/-- The part to which `wide_element` has been added `2^32` times. -/
def wide_part : Part :=
  { elements := List.replicate (2 ^ 32) wide_element }

/-! ## Element counts -/

theorem accumulate_size_t_foldl (dims : List Nat) (acc : Nat) :
    dims.foldl (fun acc d => (acc * d) % SIZE_T_RANGE) (acc % SIZE_T_RANGE)
      = (acc * dims.prod) % SIZE_T_RANGE := by
  induction dims generalizing acc with
  | nil => simp
  | cons d ds ih =>
    simp only [List.foldl_cons, List.prod_cons]
    rw [Nat.mod_mul_mod, ih, Nat.mul_assoc]

/-- The element count the source computes is the product of the dimensions in `size_t`
arithmetic, that is modulo `2 ^ 64`. -/
theorem accumulate_size_t_eq (dims : List Nat) :
    accumulate_size_t dims = dims.prod % SIZE_T_RANGE := by
  have h := accumulate_size_t_foldl dims 1
  simpa [accumulate_size_t, SIZE_T_RANGE] using h

theorem accumulate_size_t_exact (dims : List Nat) (h : dims.prod < SIZE_T_RANGE) :
    accumulate_size_t dims = dims.prod := by
  rw [accumulate_size_t_eq, Nat.mod_eq_of_lt h]

theorem vector_resize_length {α : Type} [Zero α] (v : List α) (n : Nat) :
    (vector_resize v n).length = n := by
  simp only [vector_resize, List.length_append, List.length_take, List.length_replicate]
  omega

/-! ## The stride of `get_offset` -/

theorem size_t_to_int_congr (a b : Nat) (h : a % INT_RANGE = b % INT_RANGE) :
    size_t_to_int a = size_t_to_int b := by
  simp only [size_t_to_int, h]

theorem int_to_size_t_to_int_mod (n : Nat) :
    int_to_size_t (size_t_to_int n) % INT_RANGE = n % INT_RANGE := by
  simp only [int_to_size_t, size_t_to_int, SIZE_T_RANGE, INT_RANGE]
  norm_num
  split <;> omega

/-- Storing a `size_t` into an `int` and reading it back as a `size_t` keeps the low 32
bits and extends their sign. -/
theorem int_to_size_t_to_int (n : Nat) :
    int_to_size_t (size_t_to_int n)
      = if n % INT_RANGE < INT_RANGE / 2 then n % INT_RANGE
        else SIZE_T_RANGE - INT_RANGE + n % INT_RANGE := by
  simp only [int_to_size_t, size_t_to_int, SIZE_T_RANGE, INT_RANGE]
  norm_num
  split <;> omega

theorem accumulate_int_step (p d : Nat) :
    size_t_to_int ((int_to_size_t (size_t_to_int p) * d) % SIZE_T_RANGE)
      = size_t_to_int (p * d) := by
  apply size_t_to_int_congr
  have hdvd : INT_RANGE ∣ SIZE_T_RANGE := ⟨2 ^ 32, by norm_num [INT_RANGE, SIZE_T_RANGE]⟩
  rw [Nat.mod_mod_of_dvd _ hdvd, Nat.mul_mod, int_to_size_t_to_int_mod, ← Nat.mul_mod]

theorem accumulate_int_foldl (dims : List Nat) (p : Nat) :
    dims.foldl (fun acc d => size_t_to_int ((int_to_size_t acc * d) % SIZE_T_RANGE))
        (size_t_to_int p)
      = size_t_to_int (p * dims.prod) := by
  induction dims generalizing p with
  | nil => simp
  | cons d ds ih =>
    simp only [List.foldl_cons, List.prod_cons]
    rw [accumulate_int_step, ih, Nat.mul_assoc]

/-- The `int` accumulator of `get_offset` ends as the product of the dimensions stored
into an `int`. -/
theorem accumulate_int_eq (dims : List Nat) :
    accumulate_int dims = size_t_to_int dims.prod := by
  have h := accumulate_int_foldl dims 1
  rw [Nat.one_mul] at h
  rw [← h]
  rfl

/-- A product below `2 ^ 31` passes through the `int` accumulator unchanged. -/
theorem stride_exact (dims : List Nat) (h : dims.prod < INT_RANGE / 2) :
    int_to_size_t (accumulate_int dims) = dims.prod := by
  have h1 : dims.prod % INT_RANGE = dims.prod :=
    Nat.mod_eq_of_lt (by simp only [INT_RANGE] at h ⊢; omega)
  rw [accumulate_int_eq, int_to_size_t_to_int, h1, if_pos h]

theorem entry_index_foldl (f : Nat → Nat) (l : List Nat) (e : Nat) :
    l.foldl (fun acc ii => (acc + f ii % SIZE_T_RANGE) % SIZE_T_RANGE) (e % SIZE_T_RANGE)
      = (e + (l.map f).sum) % SIZE_T_RANGE := by
  induction l generalizing e with
  | nil => simp
  | cons a l ih =>
    simp only [List.foldl_cons, List.map_cons, List.sum_cons]
    rw [show (e % SIZE_T_RANGE + f a % SIZE_T_RANGE) % SIZE_T_RANGE
        = (e + f a) % SIZE_T_RANGE from (Nat.add_mod e (f a) SIZE_T_RANGE).symm]
    rw [ih, Nat.add_assoc]

/-- The loop of `get_offset` computes the sum of index times stride in `size_t`. -/
theorem entry_index_eq_sum (shape indexes : List Nat) :
    Tensor.entry_index shape indexes
      = ((List.range indexes.length).map (fun ii =>
          indexes.getD ii 0 * int_to_size_t (accumulate_int (shape.drop (ii + 1))))).sum
        % SIZE_T_RANGE := by
  have h := entry_index_foldl
    (fun ii => indexes.getD ii 0 * int_to_size_t (accumulate_int (shape.drop (ii + 1))))
    (List.range indexes.length) 0
  simp only [Nat.zero_mod, Nat.zero_add] at h
  exact h

/-- Where every stride is below `2 ^ 31` and the row-major offset fits a `size_t`, the
loop of `get_offset` computes the row-major offset of the specification. -/
theorem entry_index_eq_row_major (shape indexes : List Nat)
    (hfit : ∀ k : Nat, k < indexes.length → (shape.drop (k + 1)).prod < INT_RANGE / 2)
    (hlt : row_major_offset shape indexes < SIZE_T_RANGE) :
    Tensor.entry_index shape indexes = row_major_offset shape indexes := by
  have hmap : (List.range indexes.length).map (fun ii =>
        indexes.getD ii 0 * int_to_size_t (accumulate_int (shape.drop (ii + 1))))
      = (List.range indexes.length).map
          (fun k => indexes.getD k 0 * (shape.drop (k + 1)).prod) := by
    apply List.map_congr_left
    intro k hk
    rw [stride_exact _ (hfit k (List.mem_range.mp hk))]
  rw [entry_index_eq_sum, hmap]
  exact Nat.mod_eq_of_lt hlt

/-! ## resize and reshape -/

theorem allocate_cases (lim : VectorLimits) (n : Nat) :
    lim.allocate n = .ok () ∨ ∃ e : VectorError, lim.allocate n = .error e := by
  unfold VectorLimits.allocate
  by_cases h1 : n > lim.max_size
  · exact Or.inr ⟨.length_error, by rw [if_pos h1]⟩
  · by_cases h2 : n > lim.memory
    · exact Or.inr ⟨.bad_alloc, by rw [if_neg h1, if_pos h2]⟩
    · exact Or.inl (by rw [if_neg h1, if_neg h2])

theorem resize_of_fit {α : Type} [Zero α] (lim : VectorLimits) (t : Tensor α)
    (new_shape : List Nat)
    (h : accumulate_size_t new_shape ≤ t._data.length
      ∨ lim.allocate (accumulate_size_t new_shape) = .ok ()) :
    t.resize lim new_shape
      = (.ok (), { _shape := new_shape,
                   _data := vector_resize t._data (accumulate_size_t new_shape) }) := by
  unfold Tensor.resize
  by_cases hc : accumulate_size_t new_shape ≤ t._data.length
  · simp [hc]
  · rcases h with h | h
    · exact absurd h hc
    · simp [hc, h]

theorem resize_of_error {α : Type} [Zero α] (lim : VectorLimits) (t : Tensor α)
    (new_shape : List Nat) (e : VectorError)
    (hc : ¬ accumulate_size_t new_shape ≤ t._data.length)
    (h : lim.allocate (accumulate_size_t new_shape) = .error e) :
    t.resize lim new_shape = (.error e, t) := by
  unfold Tensor.resize
  simp [hc, h]

/-- A call of `resize` either returns, with the new shape and the resized data, or throws
and leaves the tensor as it was. -/
theorem resize_cases {α : Type} [Zero α] (lim : VectorLimits) (t : Tensor α)
    (new_shape : List Nat) :
    ((accumulate_size_t new_shape ≤ t._data.length
          ∨ lim.allocate (accumulate_size_t new_shape) = .ok ())
        ∧ t.resize lim new_shape
          = (.ok (), { _shape := new_shape,
                       _data := vector_resize t._data (accumulate_size_t new_shape) }))
      ∨ ∃ e : VectorError, t.resize lim new_shape = (.error e, t) := by
  by_cases hc : accumulate_size_t new_shape ≤ t._data.length
  · exact Or.inl ⟨Or.inl hc, resize_of_fit lim t new_shape (Or.inl hc)⟩
  · rcases allocate_cases lim (accumulate_size_t new_shape) with h | ⟨e, h⟩
    · exact Or.inl ⟨Or.inr h, resize_of_fit lim t new_shape (Or.inr h)⟩
    · exact Or.inr ⟨e, resize_of_error lim t new_shape e hc h⟩

/-- C1, as stated, fails.  (a) On the default-constructed tensor, `resize({2^32, 2^32})`
returns, whatever the limits of the vector: the count is computed in `size_t` and comes
out 0, so `size()` is 0 while the product of the dimensions is `2^64`.  (b) On
`Tensor({2, 3})`, where no vector holds `2^62` elements, `resize({2^62})` throws
`std::length_error`, and the shape is still `{2, 3}` and `size()` still 6. -/
theorem resize_wraps_or_throws :
    (∀ lim : VectorLimits,
        ((Tensor.new : Tensor Int).resize lim [2 ^ 32, 2 ^ 32]).1 = .ok ()
          ∧ ((Tensor.new : Tensor Int).resize lim [2 ^ 32, 2 ^ 32]).2.get_shape
              = [2 ^ 32, 2 ^ 32]
          ∧ ((Tensor.new : Tensor Int).resize lim [2 ^ 32, 2 ^ 32]).2.size = 0)
      ∧ [2 ^ 32, 2 ^ 32].prod = 2 ^ 64
      ∧ (∀ lim : VectorLimits, lim.max_size < 2 ^ 62 →
          ((Tensor.new_shape [2, 3] : Tensor Int).resize lim [2 ^ 62]).1
              = .error .length_error
            ∧ ((Tensor.new_shape [2, 3] : Tensor Int).resize lim [2 ^ 62]).2.get_shape = [2, 3]
            ∧ ((Tensor.new_shape [2, 3] : Tensor Int).resize lim [2 ^ 62]).2.size = 6) := by
  have hwrap : accumulate_size_t [2 ^ 32, 2 ^ 32] = 0 := by decide
  have hbig : accumulate_size_t [2 ^ 62] = 2 ^ 62 := by decide
  refine ⟨fun lim => ?_, by decide, fun lim hmax => ?_⟩
  · rw [resize_of_fit lim _ _ (Or.inl (by rw [hwrap]; exact Nat.zero_le _)), hwrap]
    exact ⟨rfl, rfl, rfl⟩
  · have hlen : (Tensor.new_shape [2, 3] : Tensor Int)._data.length = 6 := by decide
    have halloc : lim.allocate (accumulate_size_t [2 ^ 62]) = .error .length_error := by
      rw [hbig]
      unfold VectorLimits.allocate
      rw [if_pos hmax]
    rw [resize_of_error lim _ _ .length_error (by rw [hbig, hlen]; norm_num) halloc]
    exact ⟨rfl, rfl, hlen⟩

/-- C1, amended: for every tensor and every `new_shape`: when `resize(new_shape)` returns,
the shape is `new_shape`, and `size()` is the product of the dimensions of `new_shape`
whenever that product is below `2^64`; when it throws, the tensor, shape and backing
storage, is the one before the call; and for a product below `2^64` it returns whenever
the product is at most the current `size()` or the vector can be allocated. -/
theorem resize_shape_and_size {α : Type} [Zero α] (lim : VectorLimits) (t : Tensor α)
    (new_shape : List Nat) :
    ((t.resize lim new_shape).1 = .ok () →
        (t.resize lim new_shape).2.get_shape = new_shape
          ∧ (new_shape.prod < SIZE_T_RANGE →
              (t.resize lim new_shape).2.size = new_shape.prod))
      ∧ (∀ e : VectorError, (t.resize lim new_shape).1 = .error e →
          (t.resize lim new_shape).2 = t)
      ∧ (new_shape.prod < SIZE_T_RANGE →
          (new_shape.prod ≤ t.size ∨ lim.allocate new_shape.prod = .ok ()) →
            (t.resize lim new_shape).1 = .ok ()) := by
  refine ⟨fun hok => ?_, fun e he => ?_, fun hlt h => ?_⟩
  · rcases resize_cases lim t new_shape with ⟨_, hr⟩ | ⟨e, hr⟩
    · rw [hr]
      refine ⟨rfl, fun hlt => ?_⟩
      show (vector_resize t._data (accumulate_size_t new_shape)).length = new_shape.prod
      rw [vector_resize_length, accumulate_size_t_exact new_shape hlt]
    · rw [hr] at hok; cases hok
  · rcases resize_cases lim t new_shape with ⟨_, hr⟩ | ⟨e2, hr⟩
    · rw [hr] at he; cases he
    · rw [hr]
  · rw [← accumulate_size_t_exact new_shape hlt] at h
    rw [resize_of_fit lim t new_shape h]

/-- The amended C1 at concrete tensors: `Tensor({2, 3})` resized to `{4, 2}` where a vector
of 8 elements can be allocated, and to `{2^40}` where it cannot. -/
theorem resize_shape_and_size_witness :
    (((Tensor.new_shape [2, 3] : Tensor Int).resize ⟨2 ^ 61 - 1, 2 ^ 30⟩ [4, 2]).1 = .ok ()
        ∧ ((Tensor.new_shape [2, 3] : Tensor Int).resize ⟨2 ^ 61 - 1, 2 ^ 30⟩ [4, 2]).2.get_shape
            = [4, 2]
        ∧ ((Tensor.new_shape [2, 3] : Tensor Int).resize ⟨2 ^ 61 - 1, 2 ^ 30⟩ [4, 2]).2.size = 8)
      ∧ ((Tensor.new_shape [2, 3] : Tensor Int).resize ⟨2 ^ 61 - 1, 2 ^ 30⟩ [2 ^ 40]).2
          = Tensor.new_shape [2, 3] :=
  have h := resize_shape_and_size ⟨2 ^ 61 - 1, 2 ^ 30⟩ (Tensor.new_shape [2, 3] : Tensor Int)
    [4, 2]
  have hok := h.2.2 (by decide) (Or.inr (by decide))
  ⟨⟨hok, (h.1 hok).1, (h.1 hok).2 (by decide)⟩,
    (resize_shape_and_size ⟨2 ^ 61 - 1, 2 ^ 30⟩ (Tensor.new_shape [2, 3] : Tensor Int)
      [2 ^ 40]).2.1 .bad_alloc (by decide)⟩

/-- C2, as stated, fails: on the default-constructed tensor (empty shape, no element)
`reshape({})` throws although the old and the new shape have the same product 1, and
`reshape({0})` returns although the products 1 and 0 differ; on `Tensor({2})` extended by
one `push_back`, `reshape({3})` returns although the products 2 and 3 differ; and on the
default-constructed tensor `reshape({2^32, 2^32})` returns although the products 1 and
`2^64` differ: the count of the new shape is computed in `size_t` and comes out 0. -/
theorem reshape_not_decided_by_old_shape :
    ((Tensor.new : Tensor Int).reshape []).1 = .error .ShapeMismatch
      ∧ accumulate_size_t (Tensor.new : Tensor Int).get_shape = accumulate_size_t []
      ∧ ((Tensor.new : Tensor Int).reshape [0]).1 = .ok ()
      ∧ accumulate_size_t (Tensor.new : Tensor Int).get_shape ≠ accumulate_size_t [0]
      ∧ (((Tensor.new_shape [2] : Tensor Int).push_back 7).reshape [3]).1 = .ok ()
      ∧ accumulate_size_t ((Tensor.new_shape [2] : Tensor Int).push_back 7).get_shape
          ≠ accumulate_size_t [3]
      ∧ ((Tensor.new : Tensor Int).reshape [2 ^ 32, 2 ^ 32]).1 = .ok ()
      ∧ (Tensor.new : Tensor Int).get_shape.prod = 1
      ∧ [2 ^ 32, 2 ^ 32].prod = 2 ^ 64 := by
  decide

theorem reshape_fails_iff {α : Type} (t : Tensor α) (new_shape : List Nat) :
    ((t.reshape new_shape).1 = .error .ShapeMismatch
        ↔ t.size ≠ new_shape.prod % SIZE_T_RANGE)
      ∧ ((t.reshape new_shape).1 = .ok () ↔ t.size = new_shape.prod % SIZE_T_RANGE) := by
  rw [← accumulate_size_t_eq]
  unfold Tensor.reshape Tensor.size
  by_cases h : t._data.length = accumulate_size_t new_shape
  · simp [h]
  · simp [h]

/-- C2, amended: for every tensor and every `new_shape` whose product is below `2^64`,
`reshape(new_shape)` throws exactly when `size()`, the backing length, differs from the
product of `new_shape`, and returns exactly when they are equal; for a product of `2^64`
or more, which no backing length equals, it throws whenever the backing length differs
from the product modulo `2^64`; whenever it returns, the shape is `new_shape`; and on a
tensor whose backing length is the product of its shape it throws exactly when the
products of the old and the new shape differ (the product of an empty shape being 1). -/
theorem reshape_fails_iff_size_mismatch {α : Type} (t : Tensor α) (new_shape : List Nat) :
    (new_shape.prod < SIZE_T_RANGE →
        ((t.reshape new_shape).1 = .error .ShapeMismatch ↔ t.size ≠ new_shape.prod)
          ∧ ((t.reshape new_shape).1 = .ok () ↔ t.size = new_shape.prod))
      ∧ (SIZE_T_RANGE ≤ new_shape.prod → t.size ≠ new_shape.prod % SIZE_T_RANGE →
          (t.reshape new_shape).1 = .error .ShapeMismatch)
      ∧ ((t.reshape new_shape).1 = .ok () → (t.reshape new_shape).2.get_shape = new_shape)
      ∧ (new_shape.prod < SIZE_T_RANGE → t.size = t.get_shape.prod →
          ((t.reshape new_shape).1 = .error .ShapeMismatch
            ↔ t.get_shape.prod ≠ new_shape.prod)) := by
  have h := reshape_fails_iff t new_shape
  refine ⟨fun hlt => ?_, fun _ hne => h.1.mpr hne, fun hok => ?_, fun hlt hinv => ?_⟩
  · rw [Nat.mod_eq_of_lt hlt] at h
    exact h
  · have hs := h.2.mp hok
    rw [← accumulate_size_t_eq] at hs
    unfold Tensor.size at hs
    simp [Tensor.reshape, Tensor.get_shape, hs]
  · rw [Nat.mod_eq_of_lt hlt, hinv] at h
    exact h.1

/-- The amended C2 at a concrete tensor: `Tensor({2, 3})` reshaped to `{3, 2}`, which
returns, and to `{4}`, which throws. -/
theorem reshape_fails_iff_size_mismatch_witness :
    ((Tensor.new_shape [2, 3] : Tensor Int).reshape [3, 2]).1 = .ok ()
      ∧ ((Tensor.new_shape [2, 3] : Tensor Int).reshape [3, 2]).2.get_shape = [3, 2]
      ∧ ((Tensor.new_shape [2, 3] : Tensor Int).reshape [4]).1 = .error .ShapeMismatch :=
  have h := reshape_fails_iff_size_mismatch (Tensor.new_shape [2, 3] : Tensor Int) [3, 2]
  have hok := (h.1 (by decide)).2.mpr (by decide)
  ⟨hok, h.2.2.1 hok,
    ((reshape_fails_iff_size_mismatch (Tensor.new_shape [2, 3] : Tensor Int) [4]).1
      (by decide)).1.mpr (by decide)⟩

/-! ## The shape invariant -/

theorem set_keeps_shape_and_size {α : Type} (t : Tensor α) (indexes : List Nat) (value : α) :
    (t.set indexes value).2._shape = t._shape
      ∧ (t.set indexes value).2._data.length = t._data.length := by
  unfold Tensor.set
  cases t.get_offset indexes with
  | error e => exact ⟨rfl, rfl⟩
  | ok offset => exact ⟨rfl, List.length_set _ _ _⟩

theorem resize_keeps_invariant {α : Type} [Zero α] (lim : VectorLimits) (t : Tensor α)
    (new_shape : List Nat) (h : t.size = accumulate_size_t t.get_shape) :
    (t.resize lim new_shape).2.size
      = accumulate_size_t (t.resize lim new_shape).2.get_shape := by
  rcases resize_cases lim t new_shape with ⟨_, hr⟩ | ⟨e, hr⟩
  · rw [hr]
    exact vector_resize_length t._data _
  · rw [hr]
    exact h

theorem apply_keeps_invariant {α : Type} [Zero α] (lim : VectorLimits) (t t2 : Tensor α)
    (c : TensorCall α) (hc : c.apply lim t = some t2)
    (h : t.size = accumulate_size_t t.get_shape) :
    t2.size = accumulate_size_t t2.get_shape := by
  cases c with
  | set indexes value =>
    have hs := set_keeps_shape_and_size t indexes value
    simp only [TensorCall.apply] at hc
    split at hc
    · cases hc
      simp only [Tensor.size, Tensor.get_shape] at h ⊢
      rw [hs.1, hs.2]; exact h
    · cases hc
  | resize new_shape =>
    simp only [TensorCall.apply] at hc
    cases hc
    exact resize_keeps_invariant lim t new_shape h
  | reshape new_shape =>
    simp only [TensorCall.apply] at hc
    cases hc
    simp only [Tensor.reshape, Tensor.size, Tensor.get_shape] at h ⊢
    by_cases hc : t._data.length = accumulate_size_t new_shape
    · simp [hc]
    · simpa [hc] using h

theorem run_calls_keeps_invariant {α : Type} [Zero α] (lim : VectorLimits)
    (calls : List (TensorCall α)) (t t2 : Tensor α) (hrun : run_calls lim t calls = some t2)
    (h : t.size = accumulate_size_t t.get_shape) :
    t2.size = accumulate_size_t t2.get_shape := by
  induction calls generalizing t with
  | nil =>
    simp only [run_calls] at hrun
    cases hrun
    exact h
  | cons c cs ih =>
    simp only [run_calls] at hrun
    cases hc : c.apply lim t with
    | none => rw [hc] at hrun; cases hrun
    | some t1 =>
      rw [hc] at hrun
      exact ih t1 hrun (apply_keeps_invariant lim t t1 c hc h)

theorem apply_on_new {α : Type} [Zero α] (lim : VectorLimits) (c : TensorCall α)
    (t2 : Tensor α) (hc : c.apply lim (Tensor.new : Tensor α) = some t2) :
    t2 = Tensor.new ∨ t2.size = accumulate_size_t t2.get_shape := by
  cases c with
  | set indexes value =>
    simp only [TensorCall.apply] at hc
    split at hc
    · cases hc; exact Or.inl rfl
    · cases hc
  | resize new_shape =>
    simp only [TensorCall.apply] at hc
    cases hc
    rcases resize_cases lim (Tensor.new : Tensor α) new_shape with ⟨_, hr⟩ | ⟨e, hr⟩
    · rw [hr]; exact Or.inr (vector_resize_length _ _)
    · rw [hr]; exact Or.inl rfl
  | reshape new_shape =>
    simp only [TensorCall.apply] at hc
    cases hc
    simp only [Tensor.reshape, Tensor.new, Tensor.size, Tensor.get_shape]
    by_cases hc : 0 = accumulate_size_t new_shape
    · right; simp [← hc]
    · left; simp [hc]

theorem run_calls_on_new {α : Type} [Zero α] (lim : VectorLimits)
    (calls : List (TensorCall α)) (t t2 : Tensor α) (hrun : run_calls lim t calls = some t2)
    (h : t = Tensor.new ∨ t.size = accumulate_size_t t.get_shape) :
    t2 = Tensor.new ∨ t2.size = accumulate_size_t t2.get_shape := by
  induction calls generalizing t with
  | nil =>
    simp only [run_calls] at hrun
    cases hrun
    exact h
  | cons c cs ih =>
    simp only [run_calls] at hrun
    cases hc : c.apply lim t with
    | none => rw [hc] at hrun; cases hrun
    | some t1 =>
      rw [hc] at hrun
      refine ih t1 hrun ?_
      rcases h with h | h
      · subst h; exact apply_on_new lim c t1 hc
      · exact Or.inr (apply_keeps_invariant lim t t1 c hc h)

theorem construct_shape_invariant {α : Type} [Zero α] (lim : VectorLimits) (list : List Nat)
    (t : Tensor α) (h : Tensor.construct_shape lim list = .ok t) :
    t = Tensor.new_shape list := by
  unfold Tensor.construct_shape at h
  split at h
  · cases h
  · cases h; rfl

theorem std_copy_some {α : Type} (src dst copied : List α) (n : Nat)
    (h : std_copy src n dst = some copied) :
    n ≤ src.length ∧ n ≤ dst.length ∧ copied = src.take n ++ dst.drop n := by
  unfold std_copy at h
  split at h
  · next hc => cases h; exact ⟨hc.1, hc.2, rfl⟩
  · cases h

/-- The constructor from a shape and a buffer, where it returns: the buffer holds at least
as many elements as the count, and the data are its first elements. -/
theorem construct_shape_data_ok {α : Type} [Zero α] (lim : VectorLimits) (list : List Nat)
    (data : List α) (t : Tensor α)
    (h : Tensor.construct_shape_data lim list data = some (.ok t)) :
    accumulate_size_t list ≤ data.length
      ∧ t = { _shape := list, _data := data.take (accumulate_size_t list) } := by
  unfold Tensor.construct_shape_data at h
  split at h
  · cases h
  · simp only [List.length_replicate] at h
    split at h
    · cases h
    · next copied hcopy =>
      have hs := std_copy_some _ _ _ _ hcopy
      cases h
      refine ⟨hs.1, ?_⟩
      rw [hs.2.2]
      have hd : (List.replicate (accumulate_size_t list) (0 : α)).drop (accumulate_size_t list)
          = [] := by
        apply List.drop_eq_nil_of_le
        rw [List.length_replicate]
      rw [hd, List.append_nil]

/-- C3, as stated, fails: the tensor of the empty constructor has backing length 0 while
the product of its empty shape is 1, before any call and also after calls that throw
(`set({}, 5)` and `reshape({2})` on it); and the constructor from the shape `{2^32, 2^32}`
returns a tensor of backing length 0, the count computed in `size_t`, while the product of
its shape is `2^64`. -/
theorem empty_constructor_breaks_invariant :
    (∀ lim : VectorLimits,
        run_calls lim (Tensor.new : Tensor Int) [] = some Tensor.new
          ∧ run_calls lim (Tensor.new : Tensor Int) [.set [] 5, .reshape [2]]
              = some Tensor.new)
      ∧ (Tensor.new : Tensor Int).size = 0
      ∧ (Tensor.new : Tensor Int).get_shape.prod = 1
      ∧ (∀ lim : VectorLimits,
          (Tensor.construct_shape lim [2 ^ 32, 2 ^ 32] : Except VectorError (Tensor Int))
            = .ok { _shape := [2 ^ 32, 2 ^ 32], _data := [] })
      ∧ [2 ^ 32, 2 ^ 32].prod = 2 ^ 64 := by
  refine ⟨fun lim => ⟨rfl, rfl⟩, rfl, rfl, fun lim => ?_, by decide⟩
  have hwrap : accumulate_size_t [2 ^ 32, 2 ^ 32] = 0 := by decide
  have halloc : lim.allocate 0 = .ok () := by
    unfold VectorLimits.allocate
    rw [if_neg (Nat.not_lt_zero _), if_neg (Nat.not_lt_zero _)]
  unfold Tensor.construct_shape Tensor.new_shape
  rw [hwrap, halloc]
  rfl

/-- C3, amended: take the tensor that the constructor from a shape, or from a shape and a
buffer, returns, and any finite sequence of `set`, `resize` and `reshape` calls on it,
returning or throwing, in which no `set` writes past the end of the data: afterwards the
backing length is the product of the current shape whenever that product is below `2^64`.
After the empty constructor followed by such a sequence the tensor is either still the one
the constructor built (no call has changed it) or the same holds of it. -/
theorem invariant_after_calls {α : Type} [Zero α] (lim : VectorLimits)
    (calls : List (TensorCall α)) (t0 t : Tensor α)
    (hrun : run_calls lim t0 calls = some t) :
    ((∃ list : List Nat, Tensor.construct_shape lim list = .ok t0) →
        t.get_shape.prod < SIZE_T_RANGE → t.size = t.get_shape.prod)
      ∧ ((∃ (list : List Nat) (data : List α),
            Tensor.construct_shape_data lim list data = some (.ok t0)) →
          t.get_shape.prod < SIZE_T_RANGE → t.size = t.get_shape.prod)
      ∧ (t0 = Tensor.new →
          t = Tensor.new ∨ (t.get_shape.prod < SIZE_T_RANGE → t.size = t.get_shape.prod)) := by
  refine ⟨fun h hlt => ?_, fun h hlt => ?_, fun h => ?_⟩
  · obtain ⟨list, h⟩ := h
    rw [← accumulate_size_t_exact _ hlt]
    apply run_calls_keeps_invariant lim calls t0 t hrun
    rw [construct_shape_invariant lim list t0 h]
    simp [Tensor.new_shape, Tensor.size, Tensor.get_shape]
  · obtain ⟨list, data, h⟩ := h
    rw [← accumulate_size_t_exact _ hlt]
    apply run_calls_keeps_invariant lim calls t0 t hrun
    have hc := construct_shape_data_ok lim list data t0 h
    rw [hc.2]
    simp only [Tensor.size, Tensor.get_shape, List.length_take]
    exact Nat.min_eq_left hc.1
  · rcases run_calls_on_new lim calls t0 t hrun (Or.inl h) with h2 | h2
    · exact Or.inl h2
    · refine Or.inr (fun hlt => ?_)
      rw [← accumulate_size_t_exact _ hlt]
      exact h2

/-- The amended C3 at a concrete run: `Tensor({2, 3})`, then `set({1, 2}, 7)`,
`resize({4, 2})`, `reshape({8})`, `reshape({3})`, which throws, and `resize({2^40})`, which
throws: the tensor has shape `{8}` and 8 elements. -/
theorem invariant_after_calls_witness :
    run_calls ⟨2 ^ 61 - 1, 2 ^ 30⟩ (Tensor.new_shape [2, 3] : Tensor Int)
        [.set [1, 2] 7, .resize [4, 2], .reshape [8], .reshape [3], .resize [2 ^ 40]]
      = some { _shape := [8], _data := [0, 0, 0, 0, 0, 7, 0, 0] }
      ∧ ({ _shape := [8], _data := [0, 0, 0, 0, 0, 7, 0, 0] } : Tensor Int).size
          = ({ _shape := [8], _data := [0, 0, 0, 0, 0, 7, 0, 0] } : Tensor Int).get_shape.prod :=
  have hrun : run_calls ⟨2 ^ 61 - 1, 2 ^ 30⟩ (Tensor.new_shape [2, 3] : Tensor Int)
        [.set [1, 2] 7, .resize [4, 2], .reshape [8], .reshape [3], .resize [2 ^ 40]]
      = some { _shape := [8], _data := [0, 0, 0, 0, 0, 7, 0, 0] } := by decide
  ⟨hrun, (invariant_after_calls ⟨2 ^ 61 - 1, 2 ^ 30⟩ _ _ _ hrun).1 ⟨[2, 3], by decide⟩
    (by decide)⟩

/-- C4: `reshape` never alters the backing storage: whether it returns or throws, the
backing length and every stored element are those before the call; and when it throws,
the shape is unchanged as well. -/
theorem reshape_keeps_data {α : Type} (t : Tensor α) (new_shape : List Nat) :
    (t.reshape new_shape).2.size = t.size
      ∧ (t.reshape new_shape).2.get_data = t.get_data
      ∧ (∀ i : Nat, (t.reshape new_shape).2.get_data[i]? = t.get_data[i]?)
      ∧ (∀ e : TensorError, (t.reshape new_shape).1 = .error e →
          (t.reshape new_shape).2 = t) := by
  unfold Tensor.reshape Tensor.size Tensor.get_data
  by_cases h : t._data.length = accumulate_size_t new_shape
  · simp [h]
  · simp [h]

/-- C4 at a concrete tensor: `reshape({4})` throws on `Tensor({2, 3})` and leaves it as it
was. -/
theorem reshape_keeps_data_witness :
    ((Tensor.new_shape [2, 3] : Tensor Int).reshape [4]).2 = Tensor.new_shape [2, 3] :=
  (reshape_keeps_data (Tensor.new_shape [2, 3] : Tensor Int) [4]).2.2.2 .ShapeMismatch
    (by decide)

/-! ## set -/

theorem set_of_offset {α : Type} (t : Tensor α) (indexes : List Nat) (value : α)
    (offset : Nat) (h : t.get_offset indexes = .ok offset) :
    t.set indexes value = (.ok (), { t with _data := t._data.set offset value }) := by
  simp [Tensor.set, h]

theorem set_of_error {α : Type} (t : Tensor α) (indexes : List Nat) (value : α)
    (e : TensorError) (h : t.get_offset indexes = .error e) :
    t.set indexes value = (.error e, t) := by
  simp [Tensor.set, h]

/-- On every tensor of shape `{2, 2^32}` with its `2^33` elements, `set({1, 5}, v)`
returns and writes element 5: the stride of dimension 0 has gone through an `int`. -/
theorem set_with_wrapped_stride {α : Type} (t : Tensor α) (v : α)
    (hs : t._shape = [2, 2 ^ 32]) (hl : t._data.length = 2 ^ 33) :
    t.set [1, 5] v = (.ok (), { t with _data := t._data.set 5 v }) := by
  apply set_of_offset
  have he : Tensor.entry_index [2, 2 ^ 32] [1, 5] = 5 := by decide
  have h0 : ¬ (2 ^ 33 = 0) := by norm_num
  have h5 : ¬ (5 > 2 ^ 33) := by norm_num
  simp only [Tensor.get_offset, hs, hl, he, h0, h5, List.length_cons, List.length_nil,
    ne_eq, not_true_eq_false, ite_false]

theorem new_shape_two_by_two_pow_32_length :
    (Tensor.new_shape [2, 2 ^ 32] : Tensor Int)._data.length = 2 ^ 33 :=
  (List.length_replicate _ _).trans (by decide)

/-- C5, evaluated where the source breaks it.  (a) On `Tensor({2, 3})`, `set({2, 0}, 7)`:
`get_offset` returns 6, the row-major offset, which is the backing length; the guard is
`entry_index > size`, so nothing is thrown, the write goes one past the last element, no
stored element holds 7 and the behaviour of the call is undefined.  (b) On `Tensor({2, 2^32})`, with its `2^33` zero elements,
`set({1, 5}, 7)`: the stride of dimension 0 is accumulated in an `int` and comes out 0,
the call returns, element 5 holds 7 and the element at the row-major offset `2^32 + 5`
is still 0. -/
theorem set_misses_row_major_offset :
    ((Tensor.new_shape [2, 3] : Tensor Int).get_offset [2, 0] = .ok 6
      ∧ row_major_offset [2, 3] [2, 0] = 6
      ∧ (Tensor.new_shape [2, 3] : Tensor Int).size = 6
      ∧ (Tensor.new_shape [2, 3] : Tensor Int).set [2, 0] 7
          = (.ok (), Tensor.new_shape [2, 3])
      ∧ (7 : Int) ∉ ((Tensor.new_shape [2, 3] : Tensor Int).set [2, 0] 7).2.get_data
      ∧ (Tensor.new_shape [2, 3] : Tensor Int).set_defined [2, 0] = false)
    ∧ (row_major_offset [2, 2 ^ 32] [1, 5] = 2 ^ 32 + 5
      ∧ Tensor.entry_index [2, 2 ^ 32] [1, 5] = 5
      ∧ (Tensor.new_shape [2, 2 ^ 32] : Tensor Int).size = 2 ^ 33
      ∧ ((Tensor.new_shape [2, 2 ^ 32] : Tensor Int).set [1, 5] 7).1 = .ok ()
      ∧ ((Tensor.new_shape [2, 2 ^ 32] : Tensor Int).set [1, 5] 7).2.get_data[5]? = some 7
      ∧ ((Tensor.new_shape [2, 2 ^ 32] : Tensor Int).set [1, 5] 7).2.get_data[2 ^ 32 + 5]?
          = some 0) := by
  have hl := new_shape_two_by_two_pow_32_length
  have hset := set_with_wrapped_stride (Tensor.new_shape [2, 2 ^ 32] : Tensor Int) 7 rfl hl
  refine ⟨by decide, by decide, by decide, hl, ?_, ?_, ?_⟩
  · rw [hset]
  · rw [hset]
    show ((Tensor.new_shape [2, 2 ^ 32] : Tensor Int)._data.set 5 7)[5]? = some 7
    rw [List.getElem?_set, if_pos rfl, if_pos (by rw [hl]; norm_num)]
  · rw [hset]
    show ((Tensor.new_shape [2, 2 ^ 32] : Tensor Int)._data.set 5 7)[2 ^ 32 + 5]? = some 0
    rw [List.getElem?_set_ne (by norm_num)]
    show (List.replicate (accumulate_size_t [2, 2 ^ 32]) (0 : Int))[2 ^ 32 + 5]? = some 0
    rw [List.getElem?_replicate, if_pos (by decide)]

/-- Where the lengths agree, every stride is below `2 ^ 31` and the row-major offset is
below the backing length, `set` returns, the element at the row-major offset holds the
value, every other element, the backing length and the shape are unchanged, and the write
is inside the backing storage. -/
theorem set_writes_row_major_offset {α : Type} (t : Tensor α) (indexes : List Nat)
    (value : α) (hrank : indexes.length = t.get_shape.length)
    (hfit : ∀ k : Nat, k < indexes.length → (t.get_shape.drop (k + 1)).prod < INT_RANGE / 2)
    (hsize : t.size < SIZE_T_RANGE)
    (hlt : row_major_offset t.get_shape indexes < t.size) :
    (t.set indexes value).1 = .ok ()
      ∧ (t.set indexes value).2.get_data[row_major_offset t.get_shape indexes]? = some value
      ∧ (∀ j : Nat, j ≠ row_major_offset t.get_shape indexes →
          (t.set indexes value).2.get_data[j]? = t.get_data[j]?)
      ∧ (t.set indexes value).2.get_shape = t.get_shape
      ∧ (t.set indexes value).2.size = t.size
      ∧ t.set_defined indexes = true := by
  simp only [Tensor.get_shape, Tensor.size, Tensor.get_data] at *
  have he := entry_index_eq_row_major t._shape indexes hfit (Nat.lt_trans hlt hsize)
  have h0 : ¬ t._data.length = 0 := by omega
  have h1 : ¬ row_major_offset t._shape indexes > t._data.length := by omega
  have hg : t.get_offset indexes = .ok (row_major_offset t._shape indexes) := by
    simp [Tensor.get_offset, h0, hrank, he, h1]
  rw [set_of_offset t indexes value _ hg]
  refine ⟨rfl, ?_, ?_, rfl, ?_, ?_⟩
  · simp only [List.getElem?_set, hlt, if_true]
  · intro j hj
    exact List.getElem?_set_ne (Ne.symm hj)
  · exact List.length_set _ _ _
  · simp only [Tensor.set_defined, hg]
    exact decide_eq_true hlt

/-- On `Tensor({2, 3})`, `set({1, 2}, 7)` writes element 5 = 1 * 3 + 2. -/
theorem set_writes_row_major_offset_witness :
    ((Tensor.new_shape [2, 3] : Tensor Int).set [1, 2] 7).1 = .ok ()
      ∧ ((Tensor.new_shape [2, 3] : Tensor Int).set [1, 2] 7).2.get_data[5]? = some 7 := by
  have h := set_writes_row_major_offset (Tensor.new_shape [2, 3] : Tensor Int) [1, 2] 7
    (by decide) (by decide) (by decide) (by decide)
  exact ⟨h.1, h.2.1⟩

/-- C6, as stated, fails.  (a) On the default-constructed tensor the index vector `{0}` has
length 1 and the rank is 0, and `set` throws "Tensor index too large." (`OutOfRange`), not
the rank mismatch: the guard on an empty data vector comes first.  (b) On `Tensor({2, 3})`,
`set({6148914691236517206, 0}, 7)` has the row-major offset `2^64 + 2`, far beyond the
backing length 6, and returns: the sum is formed in `size_t`, comes out 2, and element 2
holds 7.  (c) On `Tensor({2, 2^32})`, `set({2, 1}, 7)` has the row-major offset `2^33 + 1`,
beyond the backing length `2^33`, and returns: the stride of dimension 0 is accumulated in
an `int` and comes out 0. -/
theorem set_rank_mismatch_reported_as_out_of_range :
    ([0].length ≠ (Tensor.new : Tensor Int).get_shape.length
        ∧ ((Tensor.new : Tensor Int).set [0] 7).1 = .error .OutOfRange
        ∧ ((Tensor.new : Tensor Int).set [0] 7).1 ≠ .error .RankMismatch)
      ∧ (row_major_offset [2, 3] [6148914691236517206, 0] = 2 ^ 64 + 2
        ∧ (Tensor.new_shape [2, 3] : Tensor Int).size = 6
        ∧ ((Tensor.new_shape [2, 3] : Tensor Int).set [6148914691236517206, 0] 7).1 = .ok ()
        ∧ ((Tensor.new_shape [2, 3] : Tensor Int).set [6148914691236517206, 0] 7).2.get_data
            = [0, 0, 7, 0, 0, 0])
      ∧ (row_major_offset [2, 2 ^ 32] [2, 1] = 2 ^ 33 + 1
        ∧ (Tensor.new_shape [2, 2 ^ 32] : Tensor Int).size = 2 ^ 33
        ∧ ((Tensor.new_shape [2, 2 ^ 32] : Tensor Int).set [2, 1] 7).1 = .ok ()) := by
  have hl := new_shape_two_by_two_pow_32_length
  have he : Tensor.entry_index [2, 2 ^ 32] [2, 1] = 1 := by decide
  have h0 : ¬ (2 ^ 33 = 0) := by norm_num
  have h1 : ¬ (1 > 2 ^ 33) := by norm_num
  have hg : (Tensor.new_shape [2, 2 ^ 32] : Tensor Int).get_offset [2, 1] = .ok 1 := by
    have hs : (Tensor.new_shape [2, 2 ^ 32] : Tensor Int)._shape = [2, 2 ^ 32] := rfl
    simp only [Tensor.get_offset, hs, hl, he, h0, h1, List.length_cons, List.length_nil,
      ne_eq, not_true_eq_false, ite_false]
  refine ⟨by decide, by decide, ⟨by decide, hl, ?_⟩⟩
  rw [set_of_offset _ _ _ _ hg]

/-- C6, amended: `set` throws `RankMismatch` whenever the length of `indexes` differs from
the rank and the backing storage holds an element; it throws `OutOfRange` whenever the
backing storage is empty; it throws `OutOfRange` whenever the lengths agree and the
row-major offset exceeds the backing length, where every stride is below `2^31` and the
row-major offset is below `2^64`; and whenever it throws, the tensor (shape and backing
storage) is the one before the call. -/
theorem set_failures {α : Type} (t : Tensor α) (indexes : List Nat) (value : α) :
    (indexes.length ≠ t.get_shape.length → t.size ≠ 0 →
        (t.set indexes value).1 = .error .RankMismatch)
      ∧ (t.size = 0 → (t.set indexes value).1 = .error .OutOfRange)
      ∧ (indexes.length = t.get_shape.length →
          (∀ k : Nat, k < indexes.length →
            (t.get_shape.drop (k + 1)).prod < INT_RANGE / 2) →
          row_major_offset t.get_shape indexes < SIZE_T_RANGE →
          row_major_offset t.get_shape indexes > t.size →
          (t.set indexes value).1 = .error .OutOfRange)
      ∧ (∀ e : TensorError, (t.set indexes value).1 = .error e →
          (t.set indexes value).2 = t) := by
  unfold Tensor.size Tensor.get_shape
  refine ⟨fun h1 h2 => ?_, fun h => ?_, fun h1 hfit hlt h2 => ?_, fun e h => ?_⟩
  · rw [set_of_error t indexes value .RankMismatch]
    simp [Tensor.get_offset, h1, h2]
  · rw [set_of_error t indexes value .OutOfRange]
    simp [Tensor.get_offset, h]
  · rw [set_of_error t indexes value .OutOfRange]
    have he := entry_index_eq_row_major t._shape indexes hfit hlt
    by_cases h0 : t._data.length = 0
    · simp [Tensor.get_offset, h0]
    · simp [Tensor.get_offset, h0, h1, he, h2]
  · cases hg : t.get_offset indexes with
    | error e2 => rw [set_of_error t indexes value e2 hg]
    | ok offset =>
      rw [set_of_offset t indexes value offset hg] at h
      cases h

/-- The amended C6 at concrete inputs: on `Tensor({2, 3})` an index vector of length 1 is
a rank mismatch, and `{3, 0}` (row-major offset 9 > 6) is out of range and leaves the
tensor as it was. -/
theorem set_failures_witness :
    ((Tensor.new_shape [2, 3] : Tensor Int).set [1] 7).1 = .error .RankMismatch
      ∧ row_major_offset [2, 3] [3, 0] = 9
      ∧ ((Tensor.new_shape [2, 3] : Tensor Int).set [3, 0] 7).1 = .error .OutOfRange
      ∧ ((Tensor.new_shape [2, 3] : Tensor Int).set [3, 0] 7).2 = Tensor.new_shape [2, 3] :=
  ⟨(set_failures (Tensor.new_shape [2, 3] : Tensor Int) [1] 7).1 (by decide) (by decide),
    by decide,
    (set_failures (Tensor.new_shape [2, 3] : Tensor Int) [3, 0] 7).2.2.1
      (by decide) (by decide) (by decide) (by decide),
    (set_failures (Tensor.new_shape [2, 3] : Tensor Int) [3, 0] 7).2.2.2 .OutOfRange
      (by decide)⟩

/-! ## Constructors, resize contents, push_back -/

theorem allocate_zero (lim : VectorLimits) : lim.allocate 0 = .ok () := by
  unfold VectorLimits.allocate
  rw [if_neg (Nat.not_lt_zero _), if_neg (Nat.not_lt_zero _)]

theorem allocate_above_max_size (lim : VectorLimits) (n : Nat) (h : lim.max_size < n) :
    lim.allocate n = .error .length_error := by
  unfold VectorLimits.allocate
  rw [if_pos h]

/-- C7, as stated, fails.  (a) The constructor from the shape `{2^32, 2^32}` returns,
whatever the limits of the vector: the count is computed in `size_t` and comes out 0, so
the tensor has no element while the product of the shape is `2^64`.  (b) Where no vector
holds `2^62` elements, the constructor from the shape `{2^62}` throws `std::length_error`
and no tensor is constructed; so does the constructor from this shape and a buffer. -/
theorem shape_constructor_wraps_or_throws :
    (∀ lim : VectorLimits,
        (Tensor.construct_shape lim [2 ^ 32, 2 ^ 32] : Except VectorError (Tensor Int))
          = .ok { _shape := [2 ^ 32, 2 ^ 32], _data := [] })
      ∧ ({ _shape := [2 ^ 32, 2 ^ 32], _data := [] } : Tensor Int).size = 0
      ∧ [2 ^ 32, 2 ^ 32].prod = 2 ^ 64
      ∧ (∀ lim : VectorLimits, lim.max_size < 2 ^ 62 →
          (Tensor.construct_shape lim [2 ^ 62] : Except VectorError (Tensor Int))
              = .error .length_error
            ∧ ∀ buffer : List Int,
                Tensor.construct_shape_data lim [2 ^ 62] buffer
                  = some (.error .length_error)) := by
  have hwrap : accumulate_size_t [2 ^ 32, 2 ^ 32] = 0 := by decide
  have hbig : accumulate_size_t [2 ^ 62] = 2 ^ 62 := by decide
  refine ⟨fun lim => ?_, rfl, by decide, fun lim hmax => ⟨?_, fun buffer => ?_⟩⟩
  · unfold Tensor.construct_shape Tensor.new_shape
    rw [hwrap, allocate_zero]
    rfl
  · unfold Tensor.construct_shape
    rw [hbig, allocate_above_max_size lim _ hmax]
  · unfold Tensor.construct_shape_data
    rw [hbig, allocate_above_max_size lim _ hmax]

/-- C7, amended: for every shape whose product is below `2^64`: where the vector can be
allocated, the constructor from the shape returns a tensor that has that shape, a backing
length equal to the product of the shape, and every element zero, and the constructor from
the shape and a contiguous buffer of at least that many elements returns a tensor that has
that shape, that backing length, and element `i` equal to `buffer[i]` for every `i` below
it; where the vector cannot be allocated, both throw the exception of the allocation; the
empty constructor gives an empty shape and backing length 0. -/
theorem constructors_shape_size_contents {α : Type} [Zero α] (lim : VectorLimits)
    (list : List Nat) (buffer : List α) (hfit : list.prod < SIZE_T_RANGE) :
    (lim.allocate list.prod = .ok () →
        ∃ T : Tensor α, Tensor.construct_shape lim list = .ok T
          ∧ T.get_shape = list ∧ T.size = list.prod
          ∧ ∀ i : Nat, i < list.prod → T.get_data[i]? = some 0)
      ∧ (lim.allocate list.prod = .ok () → list.prod ≤ buffer.length →
        ∃ T : Tensor α, Tensor.construct_shape_data lim list buffer = some (.ok T)
          ∧ T.get_shape = list ∧ T.size = list.prod
          ∧ ∀ i : Nat, i < list.prod → T.get_data[i]? = buffer[i]?)
      ∧ (∀ e : VectorError, lim.allocate list.prod = .error e →
          (Tensor.construct_shape lim list : Except VectorError (Tensor α)) = .error e
            ∧ Tensor.construct_shape_data lim list buffer = some (.error e))
      ∧ ((Tensor.new : Tensor α).get_shape = [] ∧ (Tensor.new : Tensor α).size = 0) := by
  have hcount := accumulate_size_t_exact list hfit
  refine ⟨fun halloc => ?_, fun halloc hb => ?_, fun e halloc => ?_, ⟨rfl, rfl⟩⟩
  · refine ⟨Tensor.new_shape list, ?_, rfl, ?_, ?_⟩
    · unfold Tensor.construct_shape
      rw [hcount, halloc]
    · simp [Tensor.new_shape, Tensor.size, hcount]
    · intro i hi
      simp [Tensor.new_shape, Tensor.get_data, List.getElem?_replicate, hcount, hi]
  · refine ⟨{ _shape := list, _data := buffer.take list.prod }, ?_, rfl, ?_, ?_⟩
    · have hd : (List.replicate list.prod (0 : α)).drop list.prod = [] := by
        apply List.drop_eq_nil_of_le
        rw [List.length_replicate]
      unfold Tensor.construct_shape_data
      rw [hcount, halloc]
      simp only [std_copy, List.length_replicate, hb, le_refl, and_self, if_true, hd,
        List.append_nil]
    · simp only [Tensor.size, List.length_take]
      exact Nat.min_eq_left hb
    · intro i hi
      simp only [Tensor.get_data]
      rw [List.getElem?_take_of_lt hi]
  · constructor
    · unfold Tensor.construct_shape
      rw [hcount, halloc]
    · unfold Tensor.construct_shape_data
      rw [hcount, halloc]

/-- The amended C7 at concrete inputs: `Tensor({2, 2}, buffer)` with a buffer of five
elements copies the first four. -/
theorem constructors_shape_size_contents_witness :
    ∃ T : Tensor Int,
      Tensor.construct_shape_data ⟨2 ^ 61 - 1, 2 ^ 30⟩ [2, 2] [10, 11, 12, 13, 14]
          = some (.ok T)
        ∧ T.get_shape = [2, 2] ∧ T.size = 4 ∧ T.get_data[3]? = some 13 := by
  obtain ⟨T, h1, h2, h3, h4⟩ :=
    (constructors_shape_size_contents ⟨2 ^ 61 - 1, 2 ^ 30⟩ [2, 2]
      ([10, 11, 12, 13, 14] : List Int) (by decide)).2.1 (by decide) (by decide)
  exact ⟨T, h1, h2, h3, h4 3 (by decide)⟩

/-- C8, as stated, fails.  (a) A tensor with the elements 1, 2, 3 resized to
`{2^32, 2^32}`: the product `m` is `2^64`, so element 0 should still be 1; the call
returns, whatever the limits of the vector, and the tensor has no element, the count
computed in `size_t` being 0.  (b) The same tensor resized to `{2^62}`, where no vector
holds `2^62` elements: element 3 should be zero; the call throws `std::length_error` and
the tensor has its three elements only. -/
theorem resize_wrap_drops_elements :
    (∀ lim : VectorLimits,
        (({ _shape := [3], _data := [1, 2, 3] } : Tensor Int).resize lim [2 ^ 32, 2 ^ 32])
          = (.ok (), { _shape := [2 ^ 32, 2 ^ 32], _data := [] }))
      ∧ [2 ^ 32, 2 ^ 32].prod = 2 ^ 64
      ∧ 0 < min (2 ^ 64) ({ _shape := [3], _data := [1, 2, 3] } : Tensor Int).size
      ∧ ({ _shape := [3], _data := [1, 2, 3] } : Tensor Int).get_data[0]? = some 1
      ∧ ({ _shape := [2 ^ 32, 2 ^ 32], _data := [] } : Tensor Int).get_data[0]? = none
      ∧ (∀ lim : VectorLimits, lim.max_size < 2 ^ 62 →
          (({ _shape := [3], _data := [1, 2, 3] } : Tensor Int).resize lim [2 ^ 62])
              = (.error .length_error, { _shape := [3], _data := [1, 2, 3] }))
      ∧ ({ _shape := [3], _data := [1, 2, 3] } : Tensor Int).get_data[3]? = none := by
  have hwrap : accumulate_size_t [2 ^ 32, 2 ^ 32] = 0 := by decide
  have hbig : accumulate_size_t [2 ^ 62] = 2 ^ 62 := by decide
  refine ⟨fun lim => ?_, by decide, by decide, rfl, rfl, fun lim hmax => ?_, rfl⟩
  · rw [resize_of_fit lim _ _ (Or.inl (by rw [hwrap]; exact Nat.zero_le _)), hwrap]
    rfl
  · apply resize_of_error
    · rw [hbig]
      show ¬ (2 ^ 62 ≤ 3)
      norm_num
    · rw [hbig]
      exact allocate_above_max_size lim _ hmax

/-- C8, amended: `resize` truncates or zero-extends where it returns: for every tensor
with backing contents `old` and every `new_shape` whose product `m` is below `2^64`,
`resize(new_shape)` returns whenever `m` is at most the length of `old` or the vector can
be allocated; when it returns, the backing length is `m`, element `i` is `old[i]` for every
`i` below both `m` and the length of `old`, and is zero for every `i` from the length of
`old` up to `m`; when it throws, the tensor is the one before the call. -/
theorem resize_truncates_or_zero_extends {α : Type} [Zero α] (lim : VectorLimits)
    (t : Tensor α) (new_shape : List Nat) (m : Nat) (hm : m = new_shape.prod)
    (hfit : m < SIZE_T_RANGE) :
    ((m ≤ t.size ∨ lim.allocate m = .ok ()) → (t.resize lim new_shape).1 = .ok ())
      ∧ ((t.resize lim new_shape).1 = .ok () →
          (t.resize lim new_shape).2.size = m
            ∧ (∀ i : Nat, i < min m t.size →
                (t.resize lim new_shape).2.get_data[i]? = t.get_data[i]?)
            ∧ (∀ i : Nat, t.size ≤ i → i < m →
                (t.resize lim new_shape).2.get_data[i]? = some 0))
      ∧ (∀ e : VectorError, (t.resize lim new_shape).1 = .error e →
          (t.resize lim new_shape).2 = t) := by
  subst hm
  have hcount := accumulate_size_t_exact new_shape hfit
  refine ⟨fun h => ?_, fun hok => ?_, fun e he => ?_⟩
  · rw [← hcount] at h
    rw [resize_of_fit lim t new_shape h]
  · rcases resize_cases lim t new_shape with ⟨_, hr⟩ | ⟨e, hr⟩
    · rw [hr, hcount]
      simp only [Tensor.size, Tensor.get_data, vector_resize]
      refine ⟨?_, fun i hi => ?_, fun i h1 h2 => ?_⟩
      · simp only [List.length_append, List.length_take, List.length_replicate]
        omega
      · have h1 : i < (List.take new_shape.prod t._data).length := by
          rw [List.length_take]; exact hi
        rw [List.getElem?_append_left h1, List.getElem?_take_of_lt (by omega)]
      · have h3 : (List.take new_shape.prod t._data).length ≤ i := by
          rw [List.length_take]; omega
        rw [List.getElem?_append_right h3, List.getElem?_replicate, List.length_take]
        rw [if_pos (by omega)]
    · rw [hr] at hok; cases hok
  · rcases resize_cases lim t new_shape with ⟨_, hr⟩ | ⟨e2, hr⟩
    · rw [hr] at he; cases he
    · rw [hr]

/-- The amended C8 at concrete inputs: a tensor with the elements 1, 2, 3 resized to `{2}`
keeps 1 and 2, and resized to `{5}`, where a vector of 5 elements can be allocated, gets
zero at position 4. -/
theorem resize_truncates_or_zero_extends_witness :
    ((({ _shape := [3], _data := [1, 2, 3] } : Tensor Int).resize ⟨2 ^ 61 - 1, 2 ^ 30⟩
          [2]).2.size = 2
        ∧ (({ _shape := [3], _data := [1, 2, 3] } : Tensor Int).resize ⟨2 ^ 61 - 1, 2 ^ 30⟩
          [2]).2.get_data[1]? = some 2)
      ∧ (({ _shape := [3], _data := [1, 2, 3] } : Tensor Int).resize ⟨2 ^ 61 - 1, 2 ^ 30⟩
          [5]).2.get_data[4]? = some 0 :=
  have h2 := resize_truncates_or_zero_extends ⟨2 ^ 61 - 1, 2 ^ 30⟩
    ({ _shape := [3], _data := [1, 2, 3] } : Tensor Int) [2] 2 (by decide) (by decide)
  have h5 := resize_truncates_or_zero_extends ⟨2 ^ 61 - 1, 2 ^ 30⟩
    ({ _shape := [3], _data := [1, 2, 3] } : Tensor Int) [5] 5 (by decide) (by decide)
  ⟨⟨(h2.2.1 (h2.1 (Or.inl (by decide)))).1,
      (h2.2.1 (h2.1 (Or.inl (by decide)))).2.1 1 (by decide)⟩,
    (h5.2.1 (h5.1 (Or.inr (by decide)))).2.2 4 (by decide) (by decide)⟩

/-- C10: `submit` throws the terminating error if and only if `m_exit` is set at the call;
when it throws, the queue is as before (no closure in `m_work`, no promise allocated, no
future returned); when it does not, it returns one future, on a newly allocated pending
promise, and `m_work` is the old deque with exactly one closure added, the one that holds
this promise and the references to the arguments. -/
theorem submit_terminating_iff_exit {κ α ρ ε : Type} (q : WorkQueue κ α ρ ε)
    (function : α → Except ε ρ) (args : κ) :
    ((q.submit function args).1 = .error .Terminating ↔ q.m_exit = true)
      ∧ (q.m_exit = true → (q.submit function args).2 = q)
      ∧ (q.m_exit = false →
          (q.submit function args).1 = .ok { state := q.heap.length }
            ∧ (q.submit function args).2.heap
                = q.heap ++ [{ first := .pending, second := function }]
            ∧ (q.submit function args).2.m_work
                = q.m_work ++ [{ data := q.heap.length, args := args }]
            ∧ (q.submit function args).2.m_work.length = q.m_work.length + 1
            ∧ (q.submit function args).2.m_exit = false
            ∧ (q.submit function args).2.m_finish_work = q.m_finish_work) := by
  unfold WorkQueue.submit
  cases h : q.m_exit with
  | true => simp
  | false => simp

/-- C10 at concrete queues: a queue with `m_exit` set refuses the work and keeps its one
queued closure; the same queue with `m_exit` clear returns the future of promise 1 and
holds two closures. -/
theorem submit_terminating_iff_exit_witness :
    ((⟨[⟨0, 4⟩], true, true, [⟨.pending, fun n => .ok (n + 1)⟩]⟩ :
          WorkQueue Nat Nat Nat String).submit (fun n => .ok (2 * n)) 5).2.m_work = [⟨0, 4⟩]
      ∧ ((⟨[⟨0, 4⟩], false, true, [⟨.pending, fun n => .ok (n + 1)⟩]⟩ :
          WorkQueue Nat Nat Nat String).submit (fun n => .ok (2 * n)) 5).1 = .ok ⟨1⟩
      ∧ ((⟨[⟨0, 4⟩], false, true, [⟨.pending, fun n => .ok (n + 1)⟩]⟩ :
          WorkQueue Nat Nat Nat String).submit (fun n => .ok (2 * n)) 5).2.m_work
          = [⟨0, 4⟩, ⟨1, 5⟩] :=
  ⟨congrArg WorkQueue.m_work
      ((submit_terminating_iff_exit
        (⟨[⟨0, 4⟩], true, true, [⟨.pending, fun n => .ok (n + 1)⟩]⟩ :
          WorkQueue Nat Nat Nat String) (fun n => .ok (2 * n)) 5).2.1 rfl),
    ((submit_terminating_iff_exit
        (⟨[⟨0, 4⟩], false, true, [⟨.pending, fun n => .ok (n + 1)⟩]⟩ :
          WorkQueue Nat Nat Nat String) (fun n => .ok (2 * n)) 5).2.2 rfl).1,
    ((submit_terminating_iff_exit
        (⟨[⟨0, 4⟩], false, true, [⟨.pending, fun n => .ok (n + 1)⟩]⟩ :
          WorkQueue Nat Nat Nat String) (fun n => .ok (2 * n)) 5).2.2 rfl).2.2.1⟩

/-! ## get_offset: the guard and the stride -/

theorem new_shape_length {α : Type} [Zero α] (list : List Nat) :
    (Tensor.new_shape list : Tensor α)._data.length = accumulate_size_t list :=
  List.length_replicate _ _

theorem get_offset_of_entry_index {α : Type} (t : Tensor α) (indexes : List Nat)
    (h0 : t._data.length ≠ 0) (hrank : indexes.length = t._shape.length) :
    t.get_offset indexes
      = if Tensor.entry_index t._shape indexes > t._data.length then .error .OutOfRange
        else .ok (Tensor.entry_index t._shape indexes) := by
  simp [Tensor.get_offset, h0, hrank]

theorem get_offset_le_size {α : Type} (t : Tensor α) (indexes : List Nat) (offset : Nat)
    (h : t.get_offset indexes = .ok offset) : offset ≤ t._data.length := by
  unfold Tensor.get_offset at h
  split at h
  · cases h
  · split at h
    · cases h
    · simp only at h
      split at h
      · cases h
      · cases h
        omega

/-- C16, evaluated where the source breaks it: on `Tensor({3})`, `set({3}, 7)` does not
fail and the offset it writes to is 3, the backing length, which is not a position of the
backing storage: the behaviour of the call is undefined.  What the guard `entry_index > size` of `get_offset` does give is that an
offset it returns is at most the backing length. -/
theorem set_writes_at_backing_length :
    ((Tensor.new_shape [3] : Tensor Int).get_offset [3] = .ok 3
      ∧ (Tensor.new_shape [3] : Tensor Int).size = 3
      ∧ ((Tensor.new_shape [3] : Tensor Int).set [3] 7).1 = .ok ()
      ∧ ¬ (3 < (Tensor.new_shape [3] : Tensor Int).size)
      ∧ (Tensor.new_shape [3] : Tensor Int).set_defined [3] = false)
    ∧ (∀ (t : Tensor Int) (indexes : List Nat) (offset : Nat),
        t.get_offset indexes = .ok offset → offset ≤ t.size) := by
  refine ⟨by decide, ?_⟩
  intro t indexes offset h
  exact get_offset_le_size t indexes offset h

/-- C18, evaluated where the source breaks it: the stride of `get_offset` is the product
of the trailing dimensions stored into an `int` and converted back, so it is the low 32
bits of that product with their sign extended.  For the shape `{2, 2^31}` the stride of
dimension 0 is `2^64 - 2^31` where the `size_t` product is `2^31`; for `{2, 2^32}` it is 0
where the `size_t` product is `2^32`. -/
theorem stride_goes_through_int :
    (int_to_size_t (accumulate_int (List.drop (0 + 1) [2, 2 ^ 31])) = 2 ^ 64 - 2 ^ 31
      ∧ accumulate_size_t (List.drop (0 + 1) [2, 2 ^ 31]) = 2 ^ 31)
    ∧ (int_to_size_t (accumulate_int (List.drop (0 + 1) [2, 2 ^ 32])) = 0
      ∧ accumulate_size_t (List.drop (0 + 1) [2, 2 ^ 32]) = 2 ^ 32)
    ∧ (∀ (shape : List Nat) (k : Nat),
        int_to_size_t (accumulate_int (shape.drop (k + 1)))
          = if (shape.drop (k + 1)).prod % INT_RANGE < INT_RANGE / 2
            then (shape.drop (k + 1)).prod % INT_RANGE
            else SIZE_T_RANGE - INT_RANGE + (shape.drop (k + 1)).prod % INT_RANGE) := by
  refine ⟨by decide, by decide, ?_⟩
  intro shape k
  rw [accumulate_int_eq, int_to_size_t_to_int]

/-- C17, evaluated where the source breaks it.  (a) Shape `{2, 2^31}`, all dimensions
positive, index `{1, 0}` in bounds: the loop of `get_offset` yields `2^64 - 2^31`, not
below the element count `2^32`, and on `Tensor({2, 2^31})` the call `set({1, 0}, 7)`
throws.  (b) Shape `{2, 2^32}`: the in-bounds indexes `{1, 0}` and `{0, 0}` differ and get
the same offset 0, also from `get_offset` on `Tensor({2, 2^32})`. -/
theorem in_bounds_offsets_wrong :
    (List.Forall₂ (fun i d => i < d) [1, 0] [2, 2 ^ 31]
      ∧ Tensor.entry_index [2, 2 ^ 31] [1, 0] = 2 ^ 64 - 2 ^ 31
      ∧ accumulate_size_t [2, 2 ^ 31] = 2 ^ 32
      ∧ (Tensor.new_shape [2, 2 ^ 31] : Tensor Int).size = 2 ^ 32
      ∧ (Tensor.new_shape [2, 2 ^ 31] : Tensor Int).set [1, 0] 7
          = (.error .OutOfRange, Tensor.new_shape [2, 2 ^ 31]))
    ∧ (List.Forall₂ (fun i d => i < d) [1, 0] [2, 2 ^ 32]
      ∧ List.Forall₂ (fun i d => i < d) [0, 0] [2, 2 ^ 32]
      ∧ (Tensor.new_shape [2, 2 ^ 32] : Tensor Int).size = 2 ^ 33
      ∧ (Tensor.new_shape [2, 2 ^ 32] : Tensor Int).get_offset [1, 0] = .ok 0
      ∧ (Tensor.new_shape [2, 2 ^ 32] : Tensor Int).get_offset [0, 0] = .ok 0) := by
  have hl1 : (Tensor.new_shape [2, 2 ^ 31] : Tensor Int)._data.length = 2 ^ 32 :=
    (new_shape_length _).trans (by decide)
  have hl2 : (Tensor.new_shape [2, 2 ^ 32] : Tensor Int)._data.length = 2 ^ 33 :=
    (new_shape_length _).trans (by decide)
  have he1 : Tensor.entry_index [2, 2 ^ 31] [1, 0] = 2 ^ 64 - 2 ^ 31 := by decide
  have he2 : Tensor.entry_index [2, 2 ^ 32] [1, 0] = 0 := by decide
  have he3 : Tensor.entry_index [2, 2 ^ 32] [0, 0] = 0 := by decide
  have hg1 : (Tensor.new_shape [2, 2 ^ 31] : Tensor Int).get_offset [1, 0]
      = .error .OutOfRange := by
    rw [get_offset_of_entry_index (Tensor.new_shape [2, 2 ^ 31] : Tensor Int) [1, 0]
      (by rw [hl1]; norm_num) rfl, hl1]
    show (if Tensor.entry_index [2, 2 ^ 31] [1, 0] > 2 ^ 32 then _ else _) = _
    rw [he1, if_pos (by norm_num)]
  have hg2 : (Tensor.new_shape [2, 2 ^ 32] : Tensor Int).get_offset [1, 0] = .ok 0 := by
    rw [get_offset_of_entry_index (Tensor.new_shape [2, 2 ^ 32] : Tensor Int) [1, 0]
      (by rw [hl2]; norm_num) rfl, hl2]
    show (if Tensor.entry_index [2, 2 ^ 32] [1, 0] > 2 ^ 33 then _ else _) = _
    rw [he2, if_neg (by norm_num)]
    exact congrArg Except.ok he2
  have hg3 : (Tensor.new_shape [2, 2 ^ 32] : Tensor Int).get_offset [0, 0] = .ok 0 := by
    rw [get_offset_of_entry_index (Tensor.new_shape [2, 2 ^ 32] : Tensor Int) [0, 0]
      (by rw [hl2]; norm_num) rfl, hl2]
    show (if Tensor.entry_index [2, 2 ^ 32] [0, 0] > 2 ^ 33 then _ else _) = _
    rw [he3, if_neg (by norm_num)]
    exact congrArg Except.ok he3
  refine ⟨⟨by decide, he1, by decide, hl1, ?_⟩, by decide, by decide, hl2, hg2, hg3⟩
  exact set_of_error _ _ _ _ hg1


/-! ## WorkQueue: the order of the queue and the outcome of a task -/

theorem submit_all_spec {κ α ρ ε : Type} (jobs : List ((α → Except ε ρ) × κ))
    (q : WorkQueue κ α ρ ε) (hexit : q.m_exit = false) :
    (submit_all q jobs).1
        = (jobs.enumFrom q.heap.length).map (fun p => .ok { state := p.1 })
      ∧ (submit_all q jobs).2.m_work
        = q.m_work ++ (jobs.enumFrom q.heap.length).map
            (fun p => { data := p.1, args := p.2.2 })
      ∧ (submit_all q jobs).2.heap
        = q.heap ++ jobs.map (fun job => { first := .pending, second := job.1 })
      ∧ (submit_all q jobs).2.m_exit = false := by
  induction jobs generalizing q with
  | nil => simp [submit_all, hexit]
  | cons job jobs ih =>
    have hs : q.submit job.1 job.2
        = (.ok { state := q.heap.length },
            { q with
              heap := q.heap ++ [{ first := .pending, second := job.1 }],
              m_work := q.m_work ++ [{ data := q.heap.length, args := job.2 }] }) := by
      simp [WorkQueue.submit, hexit]
    have h := ih (q.submit job.1 job.2).2 (by rw [hs]; exact hexit)
    simp only [submit_all, List.enumFrom_cons, List.map_cons]
    rw [hs] at h ⊢
    simp only [List.length_append, List.length_singleton] at h
    refine ⟨?_, ?_, ?_, h.2.2.2⟩
    · rw [h.1]
    · rw [h.2.1, List.append_assoc]; rfl
    · rw [h.2.2.1, List.append_assoc]; rfl

theorem enqueued_getElem_opt {κ α ρ ε : Type} (jobs : List ((α → Except ε ρ) × κ))
    (b i : Nat) :
    ((jobs.enumFrom b).map (fun p => ({ data := p.1, args := p.2.2 } : Work κ)))[i]?
      = jobs[i]?.map (fun job => { data := b + i, args := job.2 }) := by
  rw [List.getElem?_map, List.getElem?_enumFrom]
  cases jobs[i]? <;> rfl

/-- C12: a successful `submit` leaves the closures already in `m_work` at their positions
and puts the new closure last; after any sequence of submits on a queue that accepts work
every call has returned a future, the closures queued before are still at their positions,
and behind them `m_work` lists the new closures in the order of the calls. -/
theorem submit_keeps_fifo_order {κ α ρ ε : Type} (q : WorkQueue κ α ρ ε)
    (function : α → Except ε ρ) (args : κ) (jobs : List ((α → Except ε ρ) × κ))
    (hexit : q.m_exit = false) :
    ((q.submit function args).2.m_work
        = q.m_work ++ [{ data := q.heap.length, args := args }]
      ∧ (∀ i : Nat, i < q.m_work.length →
          (q.submit function args).2.m_work[i]? = q.m_work[i]?)
      ∧ (q.submit function args).2.m_work.getLast?
          = some { data := q.heap.length, args := args })
    ∧ ((∀ r ∈ (submit_all q jobs).1, ∃ future : Future, r = .ok future)
      ∧ (submit_all q jobs).2.m_work.length = q.m_work.length + jobs.length
      ∧ (∀ i : Nat, i < q.m_work.length →
          (submit_all q jobs).2.m_work[i]? = q.m_work[i]?)
      ∧ (∀ i : Nat, i < jobs.length →
          (submit_all q jobs).2.m_work[q.m_work.length + i]?
            = jobs[i]?.map (fun job => { data := q.heap.length + i, args := job.2 }))) := by
  have hs : (q.submit function args).2.m_work
      = q.m_work ++ [{ data := q.heap.length, args := args }] := by
    simp [WorkQueue.submit, hexit]
  have hall := submit_all_spec jobs q hexit
  refine ⟨⟨hs, ?_, ?_⟩, ?_, ?_, ?_, ?_⟩
  · intro i hi
    rw [hs, List.getElem?_append_left hi]
  · rw [hs, List.getLast?_append]
    rfl
  · intro r hr
    rw [hall.1, List.mem_map] at hr
    obtain ⟨p, _, hp⟩ := hr
    exact ⟨{ state := p.1 }, hp.symm⟩
  · rw [hall.2.1]
    simp
  · intro i hi
    rw [hall.2.1, List.getElem?_append_left hi]
  · intro i _
    rw [hall.2.1, List.getElem?_append_right (Nat.le_add_right _ _), Nat.add_sub_cancel_left]
    exact enqueued_getElem_opt jobs q.heap.length i

/-- C12 at a concrete queue: one closure queued, then two submits. -/
theorem submit_keeps_fifo_order_witness :
    (submit_all (⟨[⟨0, 4⟩], false, true, [⟨.pending, fun n => .ok (n + 1)⟩]⟩ :
        WorkQueue Nat Nat Nat String)
      [(fun n => .ok (2 * n), 5), (fun n => .ok (3 * n), 6)]).2.m_work[1 + 1]?
      = some ⟨2, 6⟩ :=
  (submit_keeps_fifo_order
    (⟨[⟨0, 4⟩], false, true, [⟨.pending, fun n => .ok (n + 1)⟩]⟩ :
      WorkQueue Nat Nat Nat String)
    (fun n => .ok n) 0 [(fun n => .ok (2 * n), 5), (fun n => .ok (3 * n), 6)] rfl).2.2.2.2
    1 (by decide)

theorem erase_remove_if_eq_filter {α : Type} (pred : α → Bool) (l : List α) :
    erase_remove_if pred l = l.filter (fun x => !pred x) := by
  induction l with
  | nil => rfl
  | cons x xs ih =>
    cases hp : pred x <;> simp [erase_remove_if, hp, ih]

theorem push_back_loop_eq_filter {α : Type} (p : α → Prop) [DecidablePred p] (l acc : List α) :
    l.foldl (fun _elems x => if p x then _elems ++ [x] else _elems) acc
      = acc ++ l.filter (fun x => decide (p x)) := by
  induction l generalizing acc with
  | nil => simp
  | cons x xs ih =>
    by_cases hp : p x
    · simp [List.foldl_cons, hp, ih, List.filter_cons]
    · simp [List.foldl_cons, hp, ih, List.filter_cons]

/-- C14: `remove_element(e)` leaves the element list as it is when no element of the part
is `e` (has the address of `e`); in general the new list holds no occurrence of `e`, and
it is the old list with every occurrence of `e` deleted, so the remaining elements are in
their old relative order. -/
theorem remove_element_deletes_every_occurrence (part : Part) (e : Element) :
    ((∀ x ∈ part.elements, x.address ≠ e.address) →
        (part.remove_element e).elements = part.elements)
      ∧ (∀ x ∈ (part.remove_element e).elements, x.address ≠ e.address)
      ∧ (part.remove_element e).elements
          = part.elements.filter (fun x => decide (x.address ≠ e.address))
      ∧ (∀ x ∈ part.elements, x.address ≠ e.address →
          x ∈ (part.remove_element e).elements
            ∧ List.count x (part.remove_element e).elements = List.count x part.elements)
      ∧ (part.remove_element e).elements.Sublist part.elements := by
  have hf : (part.remove_element e).elements
      = part.elements.filter (fun x => decide (x.address ≠ e.address)) := by
    simp only [Part.remove_element, erase_remove_if_eq_filter]
    congr 1
    funext x
    simp
  refine ⟨?_, ?_, hf, ?_, ?_⟩
  · intro h
    rw [hf, List.filter_eq_self]
    intro x hx
    simpa using h x hx
  · intro x hx
    rw [hf, List.mem_filter] at hx
    simpa using hx.2
  · intro x hx hne
    rw [hf]
    exact ⟨List.mem_filter.mpr ⟨hx, by simpa using hne⟩,
      List.count_filter (by simpa using hne)⟩
  · rw [hf]
    exact List.filter_sublist _

/-- C14 at a concrete part: the element at address 1 occurs twice and is removed twice; an
element at address 9 does not occur and nothing changes. -/
theorem remove_element_deletes_every_occurrence_witness :
    ((⟨[⟨1, .other 2, 0, []⟩, ⟨2, .other 1, 0, []⟩, ⟨1, .other 2, 0, []⟩]⟩ :
        Part).remove_element ⟨9, .NONE, 0, []⟩).elements
        = [⟨1, .other 2, 0, []⟩, ⟨2, .other 1, 0, []⟩, ⟨1, .other 2, 0, []⟩]
      ∧ ((⟨[⟨1, .other 2, 0, []⟩, ⟨2, .other 1, 0, []⟩, ⟨1, .other 2, 0, []⟩]⟩ :
        Part).remove_element ⟨1, .other 2, 0, []⟩).elements
        = [⟨2, .other 1, 0, []⟩] :=
  ⟨(remove_element_deletes_every_occurrence
      ⟨[⟨1, .other 2, 0, []⟩, ⟨2, .other 1, 0, []⟩, ⟨1, .other 2, 0, []⟩]⟩
      ⟨9, .NONE, 0, []⟩).1 (by decide),
    (remove_element_deletes_every_occurrence
      ⟨[⟨1, .other 2, 0, []⟩, ⟨2, .other 1, 0, []⟩, ⟨1, .other 2, 0, []⟩]⟩
      ⟨1, .other 2, 0, []⟩).2.2.1⟩

/-- C15: `get_elements(NONE)` returns the whole element list; for every other type `t`,
`get_elements(t)` returns the elements of the part whose type is `t`, each as often as it
occurs in the part and in their relative order there; the element list of the part is not
modified. -/
theorem get_elements_filters_by_type (part : Part) (t : ElementType) :
    (part.get_elements .NONE).1 = part.elements
      ∧ (t ≠ .NONE →
          (part.get_elements t).1
              = part.elements.filter (fun x => decide (x.get_elementType = t))
            ∧ (∀ x : Element, x ∈ (part.get_elements t).1
                ↔ x ∈ part.elements ∧ x.get_elementType = t)
            ∧ (∀ x : Element, x.get_elementType = t →
                List.count x (part.get_elements t).1 = List.count x part.elements)
            ∧ (part.get_elements t).1.Sublist part.elements)
      ∧ (part.get_elements t).2 = part := by
  refine ⟨by simp [Part.get_elements], ?_, ?_⟩
  · intro ht
    have hf : (part.get_elements t).1
        = part.elements.filter (fun x => decide (x.get_elementType = t)) := by
      simp only [Part.get_elements, if_neg ht]
      rw [push_back_loop_eq_filter (fun x : Element => x.get_elementType = t)]
      simp
    refine ⟨hf, ?_, ?_, ?_⟩
    · intro x
      rw [hf, List.mem_filter]
      simp
    · intro x hx
      rw [hf]
      exact List.count_filter (by simpa using hx)
    · rw [hf]
      exact List.filter_sublist _
  · unfold Part.get_elements
    split <;> rfl

/-- C15 at a concrete part: of three elements, the two of type 2 are returned, in order. -/
theorem get_elements_filters_by_type_witness :
    ((⟨[⟨1, .other 2, 0, []⟩, ⟨2, .other 1, 0, []⟩, ⟨3, .other 2, 0, []⟩]⟩ :
        Part).get_elements (.other 2)).1
      = [⟨1, .other 2, 0, []⟩, ⟨3, .other 2, 0, []⟩] :=
  ((get_elements_filters_by_type
    ⟨[⟨1, .other 2, 0, []⟩, ⟨2, .other 1, 0, []⟩, ⟨3, .other 2, 0, []⟩]⟩ (.other 2)).2.1
    (by decide)).1


/-! ## Part: the node id tensor -/

theorem copy_at_append {α : Type} (src A Z : List α) (h : src.length ≤ Z.length) :
    copy_at src A.length (A ++ Z) = some (A ++ src ++ Z.drop src.length) := by
  induction src generalizing A Z with
  | nil => simp [copy_at]
  | cons x xs ih =>
    cases Z with
    | nil => simp at h
    | cons z Z =>
      have hset : (A ++ z :: Z).set A.length x = (A ++ [x]) ++ Z := by
        rw [List.set_append_right _ _ (Nat.le_refl _)]
        simp
      have hlen : (A ++ [x]).length = A.length + 1 := by simp
      have hlt : A.length < (A ++ z :: Z).length := by simp
      simp only [copy_at, hset, if_pos hlt]
      rw [← hlen, ih (A ++ [x]) Z (by simpa using h)]
      simp

/-- A `std::copy` of more elements than the destination has from the position on writes
past its end. -/
theorem copy_at_overrun {α : Type} (src A Z : List α) (h : Z.length < src.length) :
    copy_at src A.length (A ++ Z) = none := by
  induction src generalizing A Z with
  | nil => simp at h
  | cons x xs ih =>
    cases Z with
    | nil => simp [copy_at]
    | cons z Z =>
      have hset : (A ++ z :: Z).set A.length x = (A ++ [x]) ++ Z := by
        rw [List.set_append_right _ _ (Nat.le_refl _)]
        simp
      have hlen : (A ++ [x]).length = A.length + 1 := by simp
      have hlt : A.length < (A ++ z :: Z).length := by simp
      simp only [copy_at, hset, if_pos hlt]
      rw [← hlen, ih (A ++ [x]) Z (by simpa using h)]

theorem flatten_uniform_length {α : Type} (L : List (List α)) (n : Nat)
    (h : ∀ l ∈ L, l.length = n) : L.flatten.length = L.length * n := by
  induction L with
  | nil => simp
  | cons l L ih =>
    rw [List.flatten_cons, List.length_append, h l (List.mem_cons_self _ _),
      ih (fun l2 hl2 => h l2 (List.mem_cons_of_mem _ hl2)), List.length_cons]
    ring

theorem flatten_uniform_getElem_opt {α : Type} (L : List (List α)) (n r c : Nat)
    (h : ∀ l ∈ L, l.length = n) (hc : c < n) :
    L.flatten[r * n + c]? = (L[r]?).bind (fun l => l[c]?) := by
  induction L generalizing r with
  | nil => simp
  | cons l L ih =>
    have hl : l.length = n := h l (List.mem_cons_self _ _)
    have hL : ∀ l2 ∈ L, l2.length = n := fun l2 hl2 => h l2 (List.mem_cons_of_mem _ hl2)
    cases r with
    | zero =>
      rw [List.flatten_cons, Nat.zero_mul, Nat.zero_add,
        List.getElem?_append_left (by omega)]
      simp
    | succ r =>
      have hidx : (r + 1) * n + c = l.length + (r * n + c) := by rw [hl]; ring
      rw [List.flatten_cons, hidx, List.getElem?_append_right (Nat.le_add_right _ _),
        Nat.add_sub_cancel_left, ih r hL]
      simp

theorem node_ids_fold_none (t : ElementType) (n : Nat) (es : List Element) :
    es.foldl (Part.node_ids_step t n) none = none := by
  induction es with
  | nil => rfl
  | cons e es ih => exact ih

/-- The loop of `get_element_node_ids` where the data have room for the node ids of every
selected element: it ends with their number and with their node ids one after the other. -/
theorem node_ids_fold (t : ElementType) (n : Nat) (es : List Element) (k : Nat)
    (A Z : List Int) (hA : A.length = k * n)
    (hids : ∀ e ∈ es, e.get_elementType = t ∧ e.get_nNodes = n → e.get_node_ids.length = n)
    (hZ : (es.filter (fun e => decide (e.get_elementType = t ∧ e.get_nNodes = n))).length * n
      ≤ Z.length)
    (hsz : A.length + Z.length < SIZE_T_RANGE) :
    es.foldl (Part.node_ids_step t n) (some (k, A ++ Z))
      = some
        (k + (es.filter (fun e => decide (e.get_elementType = t ∧ e.get_nNodes = n))).length,
          A ++ ((es.filter (fun e => decide (e.get_elementType = t ∧ e.get_nNodes = n))).map
              Element.get_node_ids).flatten
            ++ Z.drop
              ((es.filter
                (fun e => decide (e.get_elementType = t ∧ e.get_nNodes = n))).length * n)) := by
  induction es generalizing k A Z with
  | nil => simp
  | cons e es ih =>
    have hids2 : ∀ e2 ∈ es, e2.get_elementType = t ∧ e2.get_nNodes = n →
        e2.get_node_ids.length = n := fun e2 h2 => hids e2 (List.mem_cons_of_mem _ h2)
    by_cases hm : e.get_elementType = t ∧ e.get_nNodes = n
    · have hfilter : (e :: es).filter
            (fun e => decide (e.get_elementType = t ∧ e.get_nNodes = n))
          = e :: es.filter (fun e => decide (e.get_elementType = t ∧ e.get_nNodes = n)) := by
        rw [List.filter_cons, if_pos (by simpa using hm)]
      rw [hfilter] at hZ ⊢
      rw [List.length_cons] at hZ
      have hlen : e.get_node_ids.length = n := hids e (List.mem_cons_self _ _) hm
      have hn : n ≤ Z.length := by nlinarith
      have hmod : (k * n) % SIZE_T_RANGE = A.length := by
        rw [← hA]; exact Nat.mod_eq_of_lt (by omega)
      have hstep : Part.node_ids_step t n (some (k, A ++ Z)) e
          = some (k + 1, A ++ e.get_node_ids ++ Z.drop n) := by
        simp only [Part.node_ids_step, if_pos hm, hmod]
        rw [copy_at_append _ _ _ (by omega), hlen]
      have hmul : ((es.filter
          (fun e => decide (e.get_elementType = t ∧ e.get_nNodes = n))).length + 1) * n
          = n + (es.filter
            (fun e => decide (e.get_elementType = t ∧ e.get_nNodes = n))).length * n := by
        ring
      rw [List.foldl_cons, hstep]
      rw [ih (k + 1) (A ++ e.get_node_ids) (List.drop n Z)
        (by rw [List.length_append, hA, hlen]; ring) hids2
        (by rw [List.length_drop]; omega)
        (by rw [List.length_append, List.length_drop, hlen]; omega)]
      rw [List.drop_drop, List.length_cons, List.map_cons, List.flatten_cons, hmul]
      refine congrArg some (Prod.ext (by simp only; omega) ?_)
      simp only [List.append_assoc]
    · have hfilter : (e :: es).filter
            (fun e => decide (e.get_elementType = t ∧ e.get_nNodes = n))
          = es.filter (fun e => decide (e.get_elementType = t ∧ e.get_nNodes = n)) := by
        rw [List.filter_cons, if_neg (by simpa using hm)]
      have hstep : Part.node_ids_step t n (some (k, A ++ Z)) e = some (k, A ++ Z) := by
        simp only [Part.node_ids_step, if_neg hm]
      rw [hfilter] at hZ ⊢
      rw [List.foldl_cons, hstep]
      exact ih k A Z hA hids2 hZ hsz

/-- The loop of `get_element_node_ids` where the data have no room for the node ids of
every selected element: a `std::copy` writes past the end of the data. -/
theorem node_ids_fold_overrun (t : ElementType) (n : Nat) (es : List Element) (k : Nat)
    (A Z : List Int) (hA : A.length = k * n)
    (hids : ∀ e ∈ es, e.get_elementType = t ∧ e.get_nNodes = n → e.get_node_ids.length = n)
    (hZ : Z.length
      < (es.filter (fun e => decide (e.get_elementType = t ∧ e.get_nNodes = n))).length * n)
    (hsz : A.length + Z.length < SIZE_T_RANGE) :
    es.foldl (Part.node_ids_step t n) (some (k, A ++ Z)) = none := by
  induction es generalizing k A Z with
  | nil => simp at hZ
  | cons e es ih =>
    have hids2 : ∀ e2 ∈ es, e2.get_elementType = t ∧ e2.get_nNodes = n →
        e2.get_node_ids.length = n := fun e2 h2 => hids e2 (List.mem_cons_of_mem _ h2)
    by_cases hm : e.get_elementType = t ∧ e.get_nNodes = n
    · have hfilter : (e :: es).filter
            (fun e => decide (e.get_elementType = t ∧ e.get_nNodes = n))
          = e :: es.filter (fun e => decide (e.get_elementType = t ∧ e.get_nNodes = n)) := by
        rw [List.filter_cons, if_pos (by simpa using hm)]
      rw [hfilter, List.length_cons] at hZ
      have hlen : e.get_node_ids.length = n := hids e (List.mem_cons_self _ _) hm
      have hmod : (k * n) % SIZE_T_RANGE = A.length := by
        rw [← hA]; exact Nat.mod_eq_of_lt (by omega)
      by_cases hn : n ≤ Z.length
      · have hstep : Part.node_ids_step t n (some (k, A ++ Z)) e
            = some (k + 1, A ++ e.get_node_ids ++ Z.drop n) := by
          simp only [Part.node_ids_step, if_pos hm, hmod]
          rw [copy_at_append _ _ _ (by omega), hlen]
        rw [List.foldl_cons, hstep]
        exact ih (k + 1) (A ++ e.get_node_ids) (List.drop n Z)
          (by rw [List.length_append, hA, hlen]; ring) hids2
          (by rw [List.length_drop]; nlinarith [Nat.sub_add_cancel hn])
          (by rw [List.length_append, List.length_drop, hlen]; omega)
      · have hstep : Part.node_ids_step t n (some (k, A ++ Z)) e = none := by
          simp only [Part.node_ids_step, if_pos hm, hmod]
          rw [copy_at_overrun _ _ _ (by omega)]
        rw [List.foldl_cons, hstep]
        exact node_ids_fold_none t n es
    · have hfilter : (e :: es).filter
            (fun e => decide (e.get_elementType = t ∧ e.get_nNodes = n))
          = es.filter (fun e => decide (e.get_elementType = t ∧ e.get_nNodes = n)) := by
        rw [List.filter_cons, if_neg (by simpa using hm)]
      have hstep : Part.node_ids_step t n (some (k, A ++ Z)) e = some (k, A ++ Z) := by
        simp only [Part.node_ids_step, if_neg hm]
      rw [hfilter] at hZ
      rw [List.foldl_cons, hstep]
      exact ih k A Z hA hids2 hZ hsz

theorem accumulate_size_t_pair (a b : Nat) :
    accumulate_size_t [a, b] = (a * b) % SIZE_T_RANGE := by
  rw [accumulate_size_t_eq]
  simp

theorem vector_resize_prefix {α : Type} [Zero α] (J Z : List α) :
    vector_resize (J ++ Z) J.length = J := by
  simp [vector_resize]

theorem selected_node_ids_uniform (part : Part) (t : ElementType) (n : Nat)
    (hids : ∀ e ∈ part.elements, e.get_node_ids.length = e.get_nNodes) :
    ∀ l ∈ (part.elements.filter
        (fun e => decide (e.get_elementType = t ∧ e.get_nNodes = n))).map Element.get_node_ids,
      l.length = n := by
  intro l hl
  obtain ⟨e, he, rfl⟩ := List.mem_map.mp hl
  rw [List.mem_filter] at he
  have hm : e.get_elementType = t ∧ e.get_nNodes = n := by simpa using he.2
  exact (hids e he.1).trans hm.2

/-- The first `resize` of `get_element_node_ids` and of `get_element_node_indexes`, on
the default-constructed tensor, where it returns. -/
theorem first_resize_of_fit (lim : VectorLimits) (E n : Nat)
    (hL : (E * n) % SIZE_T_RANGE = 0 ∨ lim.allocate ((E * n) % SIZE_T_RANGE) = .ok ()) :
    (Tensor.new : Tensor Int).resize lim [E, n]
      = (.ok (), { _shape := [E, n],
                   _data := List.replicate ((E * n) % SIZE_T_RANGE) 0 }) := by
  rw [resize_of_fit lim _ _ (by
    rw [accumulate_size_t_pair]
    rcases hL with h | h
    · exact Or.inl (by rw [h]; exact Nat.zero_le _)
    · exact Or.inr h)]
  simp [Tensor.new, vector_resize, accumulate_size_t_pair]

theorem first_resize_of_error (lim : VectorLimits) (E n : Nat) (e : VectorError)
    (h0 : (E * n) % SIZE_T_RANGE ≠ 0)
    (hL : lim.allocate ((E * n) % SIZE_T_RANGE) = .error e) :
    (Tensor.new : Tensor Int).resize lim [E, n] = (.error e, Tensor.new) := by
  apply resize_of_error
  · rw [accumulate_size_t_pair]
    show ¬ ((E * n) % SIZE_T_RANGE ≤ 0)
    omega
  · rw [accumulate_size_t_pair]
    exact hL

/-- Where the first `resize` returns and the data it leaves have room for the node ids of
every selected element, `get_element_node_ids` returns the tensor of their node ids. -/
theorem get_element_node_ids_of_fit (lim : VectorLimits) (part : Part) (t : ElementType)
    (n : Nat) (hids : ∀ e ∈ part.elements, e.get_node_ids.length = e.get_nNodes)
    (hL : (part.elements.length * n) % SIZE_T_RANGE = 0
      ∨ lim.allocate ((part.elements.length * n) % SIZE_T_RANGE) = .ok ())
    (hm : (part.elements.filter
        (fun e => decide (e.get_elementType = t ∧ e.get_nNodes = n))).length * n
      ≤ (part.elements.length * n) % SIZE_T_RANGE) :
    part.get_element_node_ids lim t n
      = some (.ok
        { _shape := [(part.elements.filter
            (fun e => decide (e.get_elementType = t ∧ e.get_nNodes = n))).length, n],
          _data := ((part.elements.filter
            (fun e => decide (e.get_elementType = t ∧ e.get_nNodes = n))).map
            Element.get_node_ids).flatten }) := by
  have hlt : (part.elements.length * n) % SIZE_T_RANGE < SIZE_T_RANGE :=
    Nat.mod_lt _ (by norm_num [SIZE_T_RANGE])
  have hfold := node_ids_fold t n part.elements 0 []
    (List.replicate ((part.elements.length * n) % SIZE_T_RANGE) 0)
    (by simp) (fun e he hm => (hids e he).trans hm.2)
    (by rw [List.length_replicate]; exact hm)
    (by rw [List.length_replicate]; simpa using hlt)
  rw [List.nil_append, List.nil_append, Nat.zero_add] at hfold
  have hJ := flatten_uniform_length _ n (selected_node_ids_uniform part t n hids)
  rw [List.length_map] at hJ
  have hcount : accumulate_size_t [(part.elements.filter
      (fun e => decide (e.get_elementType = t ∧ e.get_nNodes = n))).length, n]
      = ((part.elements.filter
          (fun e => decide (e.get_elementType = t ∧ e.get_nNodes = n))).map
          Element.get_node_ids).flatten.length := by
    rw [accumulate_size_t_pair, hJ]
    exact Nat.mod_eq_of_lt (Nat.lt_of_le_of_lt hm hlt)
  unfold Part.get_element_node_ids
  rw [first_resize_of_fit lim _ _ hL]
  simp only [Tensor.get_data, Part.node_ids_loop, hfold]
  rw [resize_of_fit lim _ _ (Or.inl (by
    rw [hcount]
    simp only [List.length_append]
    exact Nat.le_add_right _ _))]
  simp only [hcount, vector_resize_prefix]

/-- Where the first `resize` returns and the data it leaves have no room for the node ids
of every selected element, `get_element_node_ids` writes past the end of the data. -/
theorem get_element_node_ids_of_overrun (lim : VectorLimits) (part : Part) (t : ElementType)
    (n : Nat) (hids : ∀ e ∈ part.elements, e.get_node_ids.length = e.get_nNodes)
    (hL : (part.elements.length * n) % SIZE_T_RANGE = 0
      ∨ lim.allocate ((part.elements.length * n) % SIZE_T_RANGE) = .ok ())
    (hm : (part.elements.length * n) % SIZE_T_RANGE
      < (part.elements.filter
        (fun e => decide (e.get_elementType = t ∧ e.get_nNodes = n))).length * n) :
    part.get_element_node_ids lim t n = none := by
  have hlt : (part.elements.length * n) % SIZE_T_RANGE < SIZE_T_RANGE :=
    Nat.mod_lt _ (by norm_num [SIZE_T_RANGE])
  have hfold := node_ids_fold_overrun t n part.elements 0 []
    (List.replicate ((part.elements.length * n) % SIZE_T_RANGE) 0)
    (by simp) (fun e he hm => (hids e he).trans hm.2)
    (by rw [List.length_replicate]; exact hm)
    (by rw [List.length_replicate]; simpa using hlt)
  rw [List.nil_append] at hfold
  unfold Part.get_element_node_ids
  rw [first_resize_of_fit lim _ _ hL]
  simp only [Tensor.get_data, Part.node_ids_loop, hfold]

/-- Where the first `resize` throws, `get_element_node_ids` throws its exception. -/
theorem get_element_node_ids_of_error (lim : VectorLimits) (part : Part) (t : ElementType)
    (n : Nat) (e : VectorError) (h0 : (part.elements.length * n) % SIZE_T_RANGE ≠ 0)
    (hL : lim.allocate ((part.elements.length * n) % SIZE_T_RANGE) = .error e) :
    part.get_element_node_ids lim t n = some (.error e) := by
  unfold Part.get_element_node_ids
  rw [first_resize_of_error lim _ _ e h0 hL]

theorem wide_part_selected :
    wide_part.elements.filter
        (fun e => decide (e.get_elementType = .other 2 ∧ e.get_nNodes = 2 ^ 32))
      = List.replicate (2 ^ 32) wide_element := by
  refine List.filter_eq_self.mpr ?_
  intro a ha
  rw [List.eq_of_mem_replicate ha]
  exact decide_eq_true ⟨rfl, rfl⟩

/-- What `get_element_node_ids` returns, where it returns a tensor: the first `resize`
has returned, the data it left had room for the node ids of every selected element, and
the tensor holds these node ids one after the other. -/
theorem get_element_node_ids_of_ok (lim : VectorLimits) (part : Part) (t : ElementType)
    (n : Nat) (hids : ∀ e ∈ part.elements, e.get_node_ids.length = e.get_nNodes)
    (T : Tensor Int) (h : part.get_element_node_ids lim t n = some (.ok T)) :
    ((part.elements.length * n) % SIZE_T_RANGE = 0
        ∨ lim.allocate ((part.elements.length * n) % SIZE_T_RANGE) = .ok ())
      ∧ (part.elements.filter
          (fun e => decide (e.get_elementType = t ∧ e.get_nNodes = n))).length * n
        ≤ (part.elements.length * n) % SIZE_T_RANGE
      ∧ T = { _shape := [(part.elements.filter
                (fun e => decide (e.get_elementType = t ∧ e.get_nNodes = n))).length, n],
              _data := ((part.elements.filter
                (fun e => decide (e.get_elementType = t ∧ e.get_nNodes = n))).map
                Element.get_node_ids).flatten } := by
  by_cases hL : (part.elements.length * n) % SIZE_T_RANGE = 0
      ∨ lim.allocate ((part.elements.length * n) % SIZE_T_RANGE) = .ok ()
  · by_cases hm : (part.elements.filter
        (fun e => decide (e.get_elementType = t ∧ e.get_nNodes = n))).length * n
        ≤ (part.elements.length * n) % SIZE_T_RANGE
    · rw [get_element_node_ids_of_fit lim part t n hids hL hm] at h
      cases h
      exact ⟨hL, hm, rfl⟩
    · rw [get_element_node_ids_of_overrun lim part t n hids hL (by omega)] at h
      cases h
  · rw [not_or] at hL
    rcases allocate_cases lim ((part.elements.length * n) % SIZE_T_RANGE) with ha | ⟨e, ha⟩
    · exact absurd ha hL.2
    · rw [get_element_node_ids_of_error lim part t n e hL.1 ha] at h
      cases h

/-- C13, evaluated where the source breaks it: on the part that holds `2^32` times an
element of type 2 with `2^32` node ids (each element has exactly `get_nNodes()` node ids),
the count `2^32 * 2^32` of the first `resize` is computed in `size_t` and comes out 0, so
the `resize` returns, whatever the limits of the vector, and leaves the data empty; the
`std::copy` of the node ids of the first element then writes past the end of the data, and
`get_element_node_ids` for type 2 and `2^32` nodes returns no tensor. -/
theorem node_ids_copy_past_the_end :
    (∀ e ∈ wide_part.elements, e.get_node_ids.length = e.get_nNodes)
      ∧ wide_part.elements.length = 2 ^ 32
      ∧ (wide_part.elements.filter
          (fun e => decide (e.get_elementType = .other 2 ∧ e.get_nNodes = 2 ^ 32))).length
          = 2 ^ 32
      ∧ accumulate_size_t [2 ^ 32, 2 ^ 32] = 0
      ∧ (∀ lim : VectorLimits,
          (Tensor.new : Tensor Int).resize lim [wide_part.elements.length, 2 ^ 32]
            = (.ok (), { _shape := [2 ^ 32, 2 ^ 32], _data := [] }))
      ∧ copy_at wide_element.get_node_ids 0 ([] : List Int) = none
      ∧ (∀ lim : VectorLimits,
          wide_part.get_element_node_ids lim (.other 2) (2 ^ 32) = none) := by
  have hlen : wide_part.elements.length = 2 ^ 32 := List.length_replicate _ _
  have hsellen : (wide_part.elements.filter
      (fun e => decide (e.get_elementType = .other 2 ∧ e.get_nNodes = 2 ^ 32))).length
      = 2 ^ 32 := by
    rw [wide_part_selected]; exact List.length_replicate _ _
  have hwrap : (2 ^ 32 * 2 ^ 32) % SIZE_T_RANGE = 0 := by decide
  have hidslen : wide_element.get_node_ids.length = 2 ^ 32 := List.length_replicate _ _
  have hids : ∀ e ∈ wide_part.elements, e.get_node_ids.length = e.get_nNodes := by
    intro e he
    rw [List.eq_of_mem_replicate he]
    exact hidslen
  refine ⟨hids, hlen, hsellen, by decide, fun lim => ?_, ?_, fun lim => ?_⟩
  · rw [hlen, first_resize_of_fit lim _ _ (Or.inl hwrap), hwrap]
    rfl
  · exact copy_at_overrun wide_element.get_node_ids [] []
      (by rw [hidslen]; exact Nat.pos_of_ne_zero (by norm_num))
  · apply get_element_node_ids_of_overrun lim wide_part (.other 2) (2 ^ 32) hids
    · rw [hlen]; exact Or.inl hwrap
    · rw [hlen, hsellen, hwrap]
      norm_num

/-- Where `get_element_node_ids(t, n)` returns a tensor, on a part of which every element
has as many node ids as `get_nNodes()` says, the tensor has the shape `[m, n]` and the
backing length `m * n`, `m` being the number of elements of the part with type `t` and `n`
nodes; its data are the node ids of these elements one after the other, in the order of
the element list, so that row `r` (the entries `r * n + c` with `c < n`) holds the node
ids of the `r`-th such element.  And it returns a tensor whenever the count
`elements.size() * n` is below `2^64` and a vector of that many elements can be
allocated. -/
theorem get_element_node_ids_rows (lim : VectorLimits) (part : Part) (t : ElementType)
    (n : Nat) (hids : ∀ e ∈ part.elements, e.get_node_ids.length = e.get_nNodes) :
    (∀ T : Tensor Int, part.get_element_node_ids lim t n = some (.ok T) →
        T.get_shape
            = [(part.elements.filter
                (fun e => decide (e.get_elementType = t ∧ e.get_nNodes = n))).length, n]
          ∧ T.size
            = (part.elements.filter
                (fun e => decide (e.get_elementType = t ∧ e.get_nNodes = n))).length * n
          ∧ T.get_data
            = ((part.elements.filter
                (fun e => decide (e.get_elementType = t ∧ e.get_nNodes = n))).map
                Element.get_node_ids).flatten
          ∧ (∀ r c : Nat,
              r < (part.elements.filter
                (fun e => decide (e.get_elementType = t ∧ e.get_nNodes = n))).length →
              c < n →
              T.get_data[r * n + c]?
                = ((part.elements.filter
                    (fun e => decide (e.get_elementType = t ∧ e.get_nNodes = n)))[r]?).bind
                    (fun e => e.get_node_ids[c]?)))
      ∧ (part.elements.length * n < SIZE_T_RANGE →
          lim.allocate (part.elements.length * n) = .ok () →
          ∃ T : Tensor Int, part.get_element_node_ids lim t n = some (.ok T)) := by
  have huni := selected_node_ids_uniform part t n hids
  have hJ := flatten_uniform_length _ n huni
  rw [List.length_map] at hJ
  refine ⟨fun T h => ?_, fun hfit halloc => ?_⟩
  · rw [(get_element_node_ids_of_ok lim part t n hids T h).2.2]
    refine ⟨rfl, hJ, rfl, ?_⟩
    intro r c _ hc
    simp only [Tensor.get_data]
    rw [flatten_uniform_getElem_opt _ n r c huni hc, List.getElem?_map]
    cases (part.elements.filter
      (fun e => decide (e.get_elementType = t ∧ e.get_nNodes = n)))[r]? <;> rfl
  · have hle : (part.elements.filter
        (fun e => decide (e.get_elementType = t ∧ e.get_nNodes = n))).length * n
        ≤ part.elements.length * n :=
      Nat.mul_le_mul_right _ (List.length_filter_le _ _)
    exact ⟨_, get_element_node_ids_of_fit lim part t n hids
      (by rw [Nat.mod_eq_of_lt hfit]; exact Or.inr halloc)
      (by rw [Nat.mod_eq_of_lt hfit]; exact hle)⟩

/-- A concrete part: of three elements, the first and the third have type 2 and three
nodes; the tensor for type 2 and 3 nodes has shape `[2, 3]` and their node ids. -/
theorem get_element_node_ids_rows_witness :
    (⟨[⟨1, .other 2, 3, [10, 11, 12]⟩, ⟨2, .other 1, 2, [20, 21]⟩,
        ⟨3, .other 2, 3, [30, 31, 32]⟩]⟩ : Part).get_element_node_ids ⟨2 ^ 61 - 1, 2 ^ 30⟩
        (.other 2) 3
      = some (.ok { _shape := [2, 3], _data := [10, 11, 12, 30, 31, 32] })
    ∧ ({ _shape := [2, 3], _data := [10, 11, 12, 30, 31, 32] } : Tensor Int).get_data[1 * 3 + 2]?
      = some 32 :=
  have hret : (⟨[⟨1, .other 2, 3, [10, 11, 12]⟩, ⟨2, .other 1, 2, [20, 21]⟩,
        ⟨3, .other 2, 3, [30, 31, 32]⟩]⟩ : Part).get_element_node_ids ⟨2 ^ 61 - 1, 2 ^ 30⟩
        (.other 2) 3
      = some (.ok { _shape := [2, 3], _data := [10, 11, 12, 30, 31, 32] }) := by decide
  ⟨hret, ((get_element_node_ids_rows ⟨2 ^ 61 - 1, 2 ^ 30⟩
    ⟨[⟨1, .other 2, 3, [10, 11, 12]⟩, ⟨2, .other 1, 2, [20, 21]⟩,
      ⟨3, .other 2, 3, [30, 31, 32]⟩]⟩ (.other 2) 3 (by decide)).1 _ hret).2.2.2 1 2
    (by decide) (by decide)⟩

/-! ## Part: the node index tensor -/

theorem node_indexes_inner (f : Int → Int) (ids A Z : List Int) (h : ids.length ≤ Z.length) :
    ids.foldl (Part.node_indexes_assign f) (some (A.length, A ++ Z))
      = some (A.length + ids.length, A ++ ids.map f ++ Z.drop ids.length) := by
  induction ids generalizing A Z with
  | nil => simp
  | cons x xs ih =>
    cases Z with
    | nil => simp at h
    | cons z Z =>
      have hset : (A ++ z :: Z).set A.length (f x) = (A ++ [f x]) ++ Z := by
        rw [List.set_append_right _ _ (Nat.le_refl _)]
        simp
      have hlen : (A ++ [f x]).length = A.length + 1 := by simp
      have hlt : A.length < (A ++ z :: Z).length := by simp
      have hstep : Part.node_indexes_assign f (some (A.length, A ++ z :: Z)) x
          = some ((A ++ [f x]).length, (A ++ [f x]) ++ Z) := by
        simp only [Part.node_indexes_assign, if_pos hlt, hset, hlen]
      rw [List.foldl_cons, hstep, ih (A ++ [f x]) Z (by simpa using h), hlen]
      refine congrArg some (Prod.ext (by simp only [List.length_cons]; omega) ?_)
      simp

theorem node_indexes_fold (f : Int → Int) (t : ElementType) (n : Nat) (es : List Element)
    (A Z : List Int)
    (hids : ∀ e ∈ es, e.get_elementType = t ∧ e.get_nNodes = n → e.get_node_ids.length = n)
    (hZ : (es.filter (fun e => decide (e.get_elementType = t ∧ e.get_nNodes = n))).length * n
      ≤ Z.length) :
    es.foldl (Part.node_indexes_step f t n) (some (A.length, A ++ Z))
      = some (A.length
            + (es.filter
                (fun e => decide (e.get_elementType = t ∧ e.get_nNodes = n))).length * n,
          A ++ ((es.filter (fun e => decide (e.get_elementType = t ∧ e.get_nNodes = n))).map
              (fun e => e.get_node_ids.map f)).flatten
            ++ Z.drop
              ((es.filter
                (fun e => decide (e.get_elementType = t ∧ e.get_nNodes = n))).length * n)) := by
  induction es generalizing A Z with
  | nil => simp
  | cons e es ih =>
    have hids2 : ∀ e2 ∈ es, e2.get_elementType = t ∧ e2.get_nNodes = n →
        e2.get_node_ids.length = n := fun e2 h2 => hids e2 (List.mem_cons_of_mem _ h2)
    by_cases hm : e.get_elementType = t ∧ e.get_nNodes = n
    · have hfilter : (e :: es).filter
            (fun e => decide (e.get_elementType = t ∧ e.get_nNodes = n))
          = e :: es.filter (fun e => decide (e.get_elementType = t ∧ e.get_nNodes = n)) := by
        rw [List.filter_cons, if_pos (by simpa using hm)]
      rw [hfilter] at hZ ⊢
      rw [List.length_cons] at hZ
      have hlen : e.get_node_ids.length = n := hids e (List.mem_cons_self _ _) hm
      have hmul : ((es.filter
          (fun e => decide (e.get_elementType = t ∧ e.get_nNodes = n))).length + 1) * n
          = n + (es.filter
            (fun e => decide (e.get_elementType = t ∧ e.get_nNodes = n))).length * n := by
        ring
      have hn : n ≤ Z.length := by omega
      have hstep : Part.node_indexes_step f t n (some (A.length, A ++ Z)) e
          = some ((A ++ List.map f e.get_node_ids).length,
              (A ++ List.map f e.get_node_ids) ++ Z.drop n) := by
        simp only [Part.node_indexes_step, if_pos hm]
        rw [node_indexes_inner f _ A Z (by rw [hlen]; exact hn), hlen, List.length_append,
          List.length_map, hlen]
      have hA2 : (A ++ List.map f e.get_node_ids).length = A.length + n := by
        rw [List.length_append, List.length_map, hlen]
      rw [List.foldl_cons, hstep, ih (A ++ List.map f e.get_node_ids) (List.drop n Z) hids2
        (by rw [List.length_drop]; omega)]
      rw [List.drop_drop, List.length_cons, List.map_cons, List.flatten_cons, hmul, hA2]
      refine congrArg some (Prod.ext (by simp only; omega) ?_)
      simp only [List.append_assoc]
    · have hfilter : (e :: es).filter
            (fun e => decide (e.get_elementType = t ∧ e.get_nNodes = n))
          = es.filter (fun e => decide (e.get_elementType = t ∧ e.get_nNodes = n)) := by
        rw [List.filter_cons, if_neg (by simpa using hm)]
      have hstep : Part.node_indexes_step f t n (some (A.length, A ++ Z)) e
          = some (A.length, A ++ Z) := by
        simp only [Part.node_indexes_step, if_neg hm]
      rw [hfilter] at hZ ⊢
      rw [List.foldl_cons, hstep]
      exact ih A Z hids2 hZ

/-- Where the first `resize` returns, the data it leaves have room for the node ids of
every selected element and the node count is not 0, `get_element_node_indexes` returns the
tensor of the lookups of their node ids. -/
theorem get_element_node_indexes_of_fit (lim : VectorLimits) (f : Int → Int) (part : Part)
    (t : ElementType) (n : Nat) (hn : 0 < n)
    (hids : ∀ e ∈ part.elements, e.get_node_ids.length = e.get_nNodes)
    (hL : (part.elements.length * n) % SIZE_T_RANGE = 0
      ∨ lim.allocate ((part.elements.length * n) % SIZE_T_RANGE) = .ok ())
    (hm : (part.elements.filter
        (fun e => decide (e.get_elementType = t ∧ e.get_nNodes = n))).length * n
      ≤ (part.elements.length * n) % SIZE_T_RANGE) :
    part.get_element_node_indexes lim f t n
      = some (.ok
        { _shape := [(part.elements.filter
            (fun e => decide (e.get_elementType = t ∧ e.get_nNodes = n))).length, n],
          _data := (((part.elements.filter
            (fun e => decide (e.get_elementType = t ∧ e.get_nNodes = n))).map
            Element.get_node_ids).flatten).map f }) := by
  have hlt : (part.elements.length * n) % SIZE_T_RANGE < SIZE_T_RANGE :=
    Nat.mod_lt _ (by norm_num [SIZE_T_RANGE])
  have hfold := node_indexes_fold f t n part.elements []
    (List.replicate ((part.elements.length * n) % SIZE_T_RANGE) 0)
    (fun e he hm => (hids e he).trans hm.2)
    (by rw [List.length_replicate]; exact hm)
  rw [List.nil_append, List.nil_append, List.length_nil, Nat.zero_add] at hfold
  have huni : ∀ l ∈ (part.elements.filter
      (fun e => decide (e.get_elementType = t ∧ e.get_nNodes = n))).map
        (fun e => e.get_node_ids.map f), l.length = n := by
    intro l hl
    obtain ⟨e, he, rfl⟩ := List.mem_map.mp hl
    rw [List.length_map]
    exact selected_node_ids_uniform part t n hids _ (List.mem_map_of_mem _ he)
  have hJ := flatten_uniform_length _ n huni
  rw [List.length_map] at hJ
  have hcount : accumulate_size_t [(part.elements.filter
      (fun e => decide (e.get_elementType = t ∧ e.get_nNodes = n))).length, n]
      = ((part.elements.filter
          (fun e => decide (e.get_elementType = t ∧ e.get_nNodes = n))).map
          (fun e => e.get_node_ids.map f)).flatten.length := by
    rw [accumulate_size_t_pair, hJ]
    exact Nat.mod_eq_of_lt (Nat.lt_of_le_of_lt hm hlt)
  unfold Part.get_element_node_indexes
  rw [first_resize_of_fit lim _ _ hL]
  simp only [Tensor.get_data, Part.node_indexes_loop, hfold, if_neg (Nat.pos_iff_ne_zero.mp hn),
    Nat.mul_div_cancel _ hn]
  rw [resize_of_fit lim _ _ (Or.inl (by
    rw [hcount]
    simp only [List.length_append]
    exact Nat.le_add_right _ _))]
  simp only [hcount, vector_resize_prefix]
  rw [List.map_flatten, List.map_map]
  rfl

/-- For a node count `n > 0`, on a part of which every element has as many node ids as
`get_nNodes()` says: where `get_element_node_ids(t, n)` returns a tensor,
`get_element_node_indexes(t, n)` returns that tensor with every entry replaced by its
`get_index_from_id`: the same shape `[m, n]`, and entry `j` of the one is the lookup of
entry `j` of the other. -/
theorem node_indexes_refine_node_ids (lim : VectorLimits) (f : Int → Int) (part : Part)
    (t : ElementType) (n : Nat) (T : Tensor Int) (hn : 0 < n)
    (hids : ∀ e ∈ part.elements, e.get_node_ids.length = e.get_nNodes)
    (hT : part.get_element_node_ids lim t n = some (.ok T)) :
    part.get_element_node_indexes lim f t n
      = some (.ok { _shape := T.get_shape, _data := T.get_data.map f }) := by
  obtain ⟨hL, hm, hTeq⟩ := get_element_node_ids_of_ok lim part t n hids T hT
  rw [get_element_node_indexes_of_fit lim f part t n hn hids hL hm, hTeq]
  rfl

/-- On a part with three elements, the index tensor for type 2 and 3 nodes is the node id
tensor with the lookup applied to every entry. -/
theorem node_indexes_refine_node_ids_witness :
    (⟨[⟨1, .other 2, 3, [10, 11, 12]⟩, ⟨2, .other 1, 2, [20, 21]⟩,
        ⟨3, .other 2, 3, [30, 31, 32]⟩]⟩ : Part).get_element_node_indexes
        ⟨2 ^ 61 - 1, 2 ^ 30⟩ (fun id => id - 10) (.other 2) 3
      = some (.ok { _shape := [2, 3], _data := [0, 1, 2, 20, 21, 22] }) :=
  (node_indexes_refine_node_ids ⟨2 ^ 61 - 1, 2 ^ 30⟩ (fun id => id - 10)
    ⟨[⟨1, .other 2, 3, [10, 11, 12]⟩, ⟨2, .other 1, 2, [20, 21]⟩,
      ⟨3, .other 2, 3, [30, 31, 32]⟩]⟩ (.other 2) 3
    { _shape := [2, 3], _data := [10, 11, 12, 30, 31, 32] } (by decide) (by decide)
    (by decide)).trans (by decide)

/-- C19, evaluated where the source breaks it: with the node count 0,
`get_element_node_indexes` ends in `iEntry / nNodes`, a division by zero, for every part,
type and lookup, so it has no result, where `get_element_node_ids` returns a tensor of
shape `[m, 0]`; shown on the part without elements and on a part whose one element has
type 2 and no node. -/
theorem node_indexes_divide_by_zero :
    (∀ (lim : VectorLimits) (f : Int → Int) (part : Part) (t : ElementType),
        part.get_element_node_indexes lim f t 0 = none)
      ∧ (∀ lim : VectorLimits,
          (⟨[]⟩ : Part).get_element_node_indexes lim (fun id => id) (.other 2) 0 = none)
      ∧ (∀ lim : VectorLimits,
          (⟨[]⟩ : Part).get_element_node_ids lim (.other 2) 0
            = some (.ok { _shape := [0, 0], _data := [] }))
      ∧ (∀ lim : VectorLimits,
          (⟨[⟨1, .other 2, 0, []⟩]⟩ : Part).get_element_node_indexes lim (fun id => id)
            (.other 2) 0 = none)
      ∧ (∀ lim : VectorLimits,
          (⟨[⟨1, .other 2, 0, []⟩]⟩ : Part).get_element_node_ids lim (.other 2) 0
            = some (.ok { _shape := [1, 0], _data := [] })) := by
  have hall : ∀ (lim : VectorLimits) (f : Int → Int) (part : Part) (t : ElementType),
      part.get_element_node_indexes lim f t 0 = none := by
    intro lim f part t
    unfold Part.get_element_node_indexes
    rw [first_resize_of_fit lim _ _ (Or.inl (by simp))]
    simp only
    cases Part.node_indexes_loop f part.elements t 0
      ({ _shape := [part.elements.length, 0],
         _data := List.replicate ((part.elements.length * 0) % SIZE_T_RANGE) 0 } :
        Tensor Int).get_data with
    | none => rfl
    | some state => rfl
  refine ⟨hall, fun lim => hall lim _ _ _, fun lim => ?_, fun lim => hall lim _ _ _,
    fun lim => ?_⟩
  · exact get_element_node_ids_of_fit lim ⟨[]⟩ (.other 2) 0 (by decide) (Or.inl rfl)
      (by decide)
  · exact get_element_node_ids_of_fit lim ⟨[⟨1, .other 2, 0, []⟩]⟩ (.other 2) 0 (by decide)
      (Or.inl rfl) (by decide)

/-! ## Row-major offsets of in-bounds indexes -/

theorem row_major_offset_cons (d i : Nat) (ds is : List Nat) :
    row_major_offset (d :: ds) (i :: is) = i * ds.prod + row_major_offset ds is := by
  simp only [row_major_offset, List.length_cons, List.range_succ_eq_map, List.map_cons,
    List.sum_cons, List.map_map]
  congr 1

theorem row_major_offset_lt_prod (shape indexes : List Nat)
    (hin : List.Forall₂ (fun i d => i < d) indexes shape) :
    row_major_offset shape indexes < shape.prod := by
  induction hin with
  | nil => simp [row_major_offset]
  | @cons i d is ds hid _ ih =>
    rw [row_major_offset_cons, List.prod_cons]
    calc i * ds.prod + row_major_offset ds is
        < i * ds.prod + ds.prod := by omega
      _ = (i + 1) * ds.prod := by ring
      _ ≤ d * ds.prod := Nat.mul_le_mul_right _ hid

theorem row_major_offset_injective (shape indexes1 indexes2 : List Nat)
    (h1 : List.Forall₂ (fun i d => i < d) indexes1 shape)
    (h2 : List.Forall₂ (fun i d => i < d) indexes2 shape)
    (heq : row_major_offset shape indexes1 = row_major_offset shape indexes2) :
    indexes1 = indexes2 := by
  induction h1 generalizing indexes2 with
  | nil => cases h2; rfl
  | @cons i d is ds _ his ih =>
    cases h2 with
    | @cons j _ js _ _ hjs =>
      rw [row_major_offset_cons, row_major_offset_cons] at heq
      have hr1 := row_major_offset_lt_prod ds is his
      have hr2 := row_major_offset_lt_prod ds js hjs
      have hij : i = j := by
        rcases Nat.lt_trichotomy i j with hlt | heq2 | hgt
        · exfalso
          have : (i + 1) * ds.prod ≤ j * ds.prod := Nat.mul_le_mul_right _ hlt
          rw [Nat.add_mul, Nat.one_mul] at this
          omega
        · exact heq2
        · exfalso
          have : (j + 1) * ds.prod ≤ i * ds.prod := Nat.mul_le_mul_right _ hgt
          rw [Nat.add_mul, Nat.one_mul] at this
          omega
      subst hij
      rw [ih js hjs (by omega)]

/-- Where every stride of the shape is below `2 ^ 31` and the product of the shape fits a
`size_t`, on a tensor whose backing length is the element count of its shape: for an
in-bounds index vector `get_offset` returns the row-major offset, which is below the
backing length; two in-bounds index vectors with the same offset are equal; and `set`
returns, the element at the row-major offset holds the value, every other element is
unchanged, and the write is inside the backing storage. -/
theorem in_bounds_set_addresses_own_element {α : Type} (t : Tensor α)
    (indexes1 indexes2 : List Nat) (value : α)
    (hin1 : List.Forall₂ (fun i d => i < d) indexes1 t.get_shape)
    (hin2 : List.Forall₂ (fun i d => i < d) indexes2 t.get_shape)
    (hstride : ∀ k : Nat, k < t.get_shape.length →
      (t.get_shape.drop (k + 1)).prod < INT_RANGE / 2)
    (hprod : t.get_shape.prod < SIZE_T_RANGE)
    (hsize : t.size = accumulate_size_t t.get_shape) :
    t.get_offset indexes1 = .ok (row_major_offset t.get_shape indexes1)
      ∧ row_major_offset t.get_shape indexes1 < t.size
      ∧ (t.get_offset indexes1 = t.get_offset indexes2 → indexes1 = indexes2)
      ∧ (t.set indexes1 value).1 = .ok ()
      ∧ (t.set indexes1 value).2.get_data[row_major_offset t.get_shape indexes1]?
          = some value
      ∧ (∀ j : Nat, j ≠ row_major_offset t.get_shape indexes1 →
          (t.set indexes1 value).2.get_data[j]? = t.get_data[j]?)
      ∧ t.set_defined indexes1 = true := by
  simp only [Tensor.get_shape, Tensor.size, Tensor.get_data] at *
  rw [accumulate_size_t_exact _ hprod] at hsize
  have hget : ∀ indexes : List Nat, List.Forall₂ (fun i d => i < d) indexes t._shape →
      row_major_offset t._shape indexes < t._data.length
        ∧ t.get_offset indexes = .ok (row_major_offset t._shape indexes) := by
    intro indexes hin
    have hlen := hin.length_eq
    have hlt : row_major_offset t._shape indexes < t._data.length := by
      rw [hsize]; exact row_major_offset_lt_prod _ _ hin
    have he := entry_index_eq_row_major t._shape indexes
      (fun k hk => hstride k (by omega)) (by omega)
    refine ⟨hlt, ?_⟩
    rw [get_offset_of_entry_index t indexes (by omega) hlen, he, if_neg (by omega)]
  obtain ⟨hlt1, hg1⟩ := hget indexes1 hin1
  obtain ⟨_, hg2⟩ := hget indexes2 hin2
  refine ⟨hg1, hlt1, ?_, ?_, ?_, ?_, ?_⟩
  · intro heq
    rw [hg1, hg2] at heq
    exact row_major_offset_injective _ _ _ hin1 hin2 (Except.ok.inj heq)
  · rw [set_of_offset t indexes1 value _ hg1]
  · rw [set_of_offset t indexes1 value _ hg1]
    simp only [List.getElem?_set, hlt1, if_true]
  · intro j hj
    rw [set_of_offset t indexes1 value _ hg1]
    exact List.getElem?_set_ne (Ne.symm hj)
  · simp only [Tensor.set_defined, hg1]
    exact decide_eq_true hlt1

/-- On `Tensor({2, 3})` the in-bounds index `{1, 2}` gets offset 5 and `set({1, 2}, 7)`
writes element 5. -/
theorem in_bounds_set_addresses_own_element_witness :
    (Tensor.new_shape [2, 3] : Tensor Int).get_offset [1, 2] = .ok 5
      ∧ ((Tensor.new_shape [2, 3] : Tensor Int).set [1, 2] 7).2.get_data[5]? = some 7 := by
  have h := in_bounds_set_addresses_own_element (Tensor.new_shape [2, 3] : Tensor Int)
    [1, 2] [0, 1] 7 (by decide) (by decide) (by decide) (by decide) (by decide)
  exact ⟨h.1, h.2.2.2.2.1⟩
end qd
